import Mathlib

/-!
Verification of the vic port-layer lifecycle engine against its source.

The definitions below are shallow embeddings of the Go source files
  lib/portlayer/exec/container.go        (container cache state machine, Commit)
  lib/portlayer/network/endpoint.go      (scope/endpoint alias model)
  lib/apiservers/engine/backends/container.go (port mapping subsystem)
Go maps are modelled as association lists, Go channels as numeric ids with an
explicit closed set, and the remote virtualization infrastructure as an
environment of scripted outcomes (spec section 6 lists those collaborators).
-/

set_option maxHeartbeats 1000000

namespace Vic

/-! ### Association lists standing in for Go maps -/

def lookupA {K V : Type} [DecidableEq K] : List (K × V) → K → Option V
  | [], _ => none
  | (k, v) :: rest, key => if k = key then some v else lookupA rest key

def eraseA {K V : Type} [DecidableEq K] : List (K × V) → K → List (K × V)
  | [], _ => []
  | (k, v) :: rest, key => if k = key then eraseA rest key else (k, v) :: eraseA rest key

def insertA {K V : Type} [DecidableEq K] (l : List (K × V)) (key : K) (v : V) :
    List (K × V) :=
  (key, v) :: eraseA l key

theorem lookupA_eraseA_self {K V : Type} [DecidableEq K] (l : List (K × V)) (k : K) :
    lookupA (eraseA l k) k = none := by
  induction l with
  | nil => rfl
  | cons p rest ih =>
      obtain ⟨k', v⟩ := p
      by_cases h : k' = k
      · simpa [eraseA, h] using ih
      · simp [eraseA, lookupA, h, ih]

theorem lookupA_eraseA_ne {K V : Type} [DecidableEq K] (l : List (K × V)) {k k' : K}
    (h : k' ≠ k) : lookupA (eraseA l k) k' = lookupA l k' := by
  induction l with
  | nil => rfl
  | cons p rest ih =>
      obtain ⟨k₀, v⟩ := p
      by_cases hk : k₀ = k
      · subst hk
        have hne : k₀ ≠ k' := fun hh => h hh.symm
        rw [eraseA, if_pos rfl, lookupA, if_neg hne, ih]
      · rw [eraseA, if_neg hk, lookupA, lookupA]
        by_cases hk' : k₀ = k'
        · rw [if_pos hk', if_pos hk']
        · rw [if_neg hk', if_neg hk', ih]

theorem lookupA_insertA_self {K V : Type} [DecidableEq K] (l : List (K × V)) (k : K)
    (v : V) : lookupA (insertA l k v) k = some v := by
  simp [insertA, lookupA]

theorem lookupA_insertA_ne {K V : Type} [DecidableEq K] (l : List (K × V)) {k k' : K}
    (v : V) (h : k' ≠ k) : lookupA (insertA l k v) k' = lookupA l k' := by
  rw [insertA, lookupA, if_neg (fun hh : k = k' => h hh.symm), lookupA_eraseA_ne l h]

theorem mem_of_mem_eraseA {K V : Type} [DecidableEq K] {l : List (K × V)} {k : K}
    {p : K × V} (h : p ∈ eraseA l k) : p ∈ l ∧ p.1 ≠ k := by
  induction l with
  | nil => cases h
  | cons q rest ih =>
      obtain ⟨k₀, v⟩ := q
      by_cases hk : k₀ = k
      · simp only [eraseA, if_pos hk] at h
        exact ⟨List.mem_cons_of_mem _ (ih h).1, (ih h).2⟩
      · simp only [eraseA, if_neg hk] at h
        rcases List.mem_cons.mp h with h | h
        · subst h; exact ⟨List.mem_cons_self _ _, hk⟩
        · exact ⟨List.mem_cons_of_mem _ (ih h).1, (ih h).2⟩

theorem mem_eraseA_of_ne {K V : Type} [DecidableEq K] {l : List (K × V)} {k : K}
    {p : K × V} (hp : p ∈ l) (hne : p.1 ≠ k) : p ∈ eraseA l k := by
  induction l with
  | nil => cases hp
  | cons q rest ih =>
      obtain ⟨k₀, v⟩ := q
      rcases List.mem_cons.mp hp with h | h
      · subst h
        simp only [eraseA, if_neg hne]
        exact List.mem_cons_self _ _
      · by_cases hk : k₀ = k
        · simp only [eraseA, if_pos hk]; exact ih h
        · simp only [eraseA, if_neg hk]; exact List.mem_cons_of_mem _ (ih h)

theorem eraseA_sublist {K V : Type} [DecidableEq K] (l : List (K × V)) (k : K) :
    (eraseA l k).Sublist l := by
  induction l with
  | nil => simp [eraseA]
  | cons q rest ih =>
      obtain ⟨k₀, v⟩ := q
      by_cases hk : k₀ = k
      · simp only [eraseA, if_pos hk]
        exact ih.trans (List.sublist_cons_self _ _)
      · simp only [eraseA, if_neg hk]
        exact ih.cons₂ _

theorem lookupA_eq_some_mem {K V : Type} [DecidableEq K] {l : List (K × V)} {k : K}
    {v : V} (h : lookupA l k = some v) : (k, v) ∈ l := by
  induction l with
  | nil => simp [lookupA] at h
  | cons q rest ih =>
      obtain ⟨k₀, v₀⟩ := q
      by_cases hk : k₀ = k
      · subst hk
        simp only [lookupA, if_true, eq_self_iff_true] at h
        cases h
        exact List.mem_cons_self _ _
      · simp only [lookupA, if_neg hk] at h
        exact List.mem_cons_of_mem _ (ih h)

theorem lookupA_eq_none_iff {K V : Type} [DecidableEq K] {l : List (K × V)} {k : K} :
    lookupA l k = none ↔ ∀ p ∈ l, p.1 ≠ k := by
  induction l with
  | nil => simp [lookupA]
  | cons q rest ih =>
      obtain ⟨k₀, v₀⟩ := q
      by_cases hk : k₀ = k
      · subst hk; simp [lookupA]
      · simp [lookupA, hk, ih]

theorem lookupA_eq_of_mem_keysNodup {K V : Type} [DecidableEq K] {l : List (K × V)}
    {k : K} {v : V} (hnd : (l.map Prod.fst).Nodup) (h : (k, v) ∈ l) :
    lookupA l k = some v := by
  induction l with
  | nil => cases h
  | cons q rest ih =>
      obtain ⟨k₀, v₀⟩ := q
      simp only [List.map_cons, List.nodup_cons] at hnd
      rcases List.mem_cons.mp h with hh | hh
      · cases hh
        simp [lookupA]
      · have hk : k₀ ≠ k := by
          intro he
          exact hnd.1 (he ▸ (List.mem_map.mpr ⟨(k, v), hh, rfl⟩))
        simp only [lookupA, if_neg hk]
        exact ih hnd.2 hh

namespace Exec

/-! ### lib/portlayer/exec/container.go — container state machine

`Container` guards `state` and `newStateEvents` with its mutex; every operation
below corresponds to one critical section, so the lock itself needs no model.
Go channels are modelled by numeric ids together with the set of ids that have
been closed; id 0 is the package-level `closedEventChannel`, closed once at
start-up. -/

/-- `State`, in the declaration order of the Go enum. -/
inductive State where
  | unknown
  | starting
  | running
  | stopping
  | stopped
  | suspending
  | suspended
  | created
  | creating
  | removing
  | removed
deriving DecidableEq, Repr

/-- The locked portion of `Container`: current state, the pending one-shot
state subscriptions (`newStateEvents`), the closed-channel set and the next
fresh channel id. -/
structure Sys where
  state : State
  newStateEvents : List (State × Nat)
  closed : List Nat
  nextId : Nat
deriving DecidableEq, Repr

/-- A container fresh out of `newContainer`: no subscriptions; only the
package-level `closedEventChannel` (id 0) is closed. -/
def Sys.init (s : State) : Sys := ⟨s, [], [0], 1⟩

/-- `Container.updateState`: records the new state and, when the state actually
changes, fires (closes and removes) the subscription registered for it.
Returns `prevState`, the state read before the update. -/
def updateState (c : Sys) (s : State) : Sys × State :=
  if s = c.state then (c, c.state)
  else
    match lookupA c.newStateEvents s with
    | some ch =>
        ({ c with
            state := s
            newStateEvents := eraseA c.newStateEvents s
            closed := ch :: c.closed }, c.state)
    | none => ({ c with state := s }, c.state)

/-- `Container.SetState`: takes the lock and calls `updateState`. -/
def setState (c : Sys) (s : State) : Sys × State := updateState c s

/-- `Container.WaitForState`: the pre-closed channel when the state is already
`s`, the existing subscription channel when one is registered, and otherwise a
freshly registered channel. Returns the channel id. -/
def waitForState (c : Sys) (s : State) : Sys × Nat :=
  if s = c.state then (c, 0)
  else
    match lookupA c.newStateEvents s with
    | some ch => (c, ch)
    | none =>
        ({ c with
            newStateEvents := (s, c.nextId) :: c.newStateEvents
            nextId := c.nextId + 1 }, c.nextId)

/-- An operation on the container that touches the subscription map. -/
inductive Op where
  | wait (s : State)
  | set (s : State)

/-- Run a sequence of `SetState` / `WaitForState` calls. -/
def runOps (c : Sys) : List Op → Sys
  | [] => c
  | .wait s :: rest => runOps (waitForState c s).1 rest
  | .set s :: rest => runOps (setState c s).1 rest

/-- Run a sequence of `SetState` calls. -/
def runSets (c : Sys) (l : List State) : Sys :=
  runOps c (l.map Op.set)

/-- The channel bookkeeping invariant of a live `Container`:
no subscription is keyed by the current state, channel 0 (the package-level
`closedEventChannel`) is closed, no channel is closed twice, subscription keys
and channel ids are unique, pending channels are open, and all ids are below
the fresh counter. -/
def ChanInv (c : Sys) : Prop :=
  lookupA c.newStateEvents c.state = none ∧
  0 ∈ c.closed ∧
  c.closed.Nodup ∧
  (c.newStateEvents.map Prod.fst).Nodup ∧
  (c.newStateEvents.map Prod.snd).Nodup ∧
  (∀ p ∈ c.newStateEvents, p.2 ∉ c.closed ∧ 0 < p.2 ∧ p.2 < c.nextId) ∧
  (∀ n ∈ c.closed, n < c.nextId)

theorem chanInv_init (s : State) : ChanInv (Sys.init s) := by
  refine ⟨rfl, ?_, ?_, ?_, ?_, ?_, ?_⟩ <;> simp [Sys.init]

theorem chanInv_updateState {c : Sys} (h : ChanInv c) (s : State) :
    ChanInv (updateState c s).1 := by
  obtain ⟨hcur, h0, hnd, hkeys, hchans, hmem, hbound⟩ := h
  unfold updateState
  by_cases hs : s = c.state
  · rw [if_pos hs]
    exact ⟨hcur, h0, hnd, hkeys, hchans, hmem, hbound⟩
  · rw [if_neg hs]
    cases hch : lookupA c.newStateEvents s with
    | none =>
        exact ⟨hch, h0, hnd, hkeys, hchans, hmem, hbound⟩
    | some ch =>
        have hchmem : (s, ch) ∈ c.newStateEvents := lookupA_eq_some_mem hch
        have hchprops := hmem _ hchmem
        refine ⟨lookupA_eraseA_self _ _, List.mem_cons_of_mem _ h0, ?_, ?_, ?_, ?_, ?_⟩
        · exact List.nodup_cons.mpr ⟨hchprops.1, hnd⟩
        · exact ((eraseA_sublist _ _).map Prod.fst).nodup hkeys
        · exact ((eraseA_sublist _ _).map Prod.snd).nodup hchans
        · intro p hp
          have hpl := mem_of_mem_eraseA hp
          have hprops := hmem _ hpl.1
          refine ⟨?_, hprops.2⟩
          intro hcl
          rcases List.mem_cons.mp hcl with hcl | hcl
          · -- p's channel equals the fired channel: impossible, channel ids are unique
            have hpe : p = (s, ch) :=
              List.inj_on_of_nodup_map hchans hpl.1 hchmem hcl
            exact hpl.2 (by rw [hpe])
          · exact hprops.1 hcl
        · intro n hn
          rcases List.mem_cons.mp hn with hn | hn
          · exact hn ▸ hchprops.2.2
          · exact hbound n hn

theorem chanInv_waitForState {c : Sys} (h : ChanInv c) (s : State) :
    ChanInv (waitForState c s).1 := by
  obtain ⟨hcur, h0, hnd, hkeys, hchans, hmem, hbound⟩ := h
  have hnext0 : 0 < c.nextId := hbound 0 h0
  unfold waitForState
  by_cases hs : s = c.state
  · rw [if_pos hs]
    exact ⟨hcur, h0, hnd, hkeys, hchans, hmem, hbound⟩
  · rw [if_neg hs]
    cases hch : lookupA c.newStateEvents s with
    | some ch =>
        exact ⟨hcur, h0, hnd, hkeys, hchans, hmem, hbound⟩
    | none =>
        have hsout : ∀ p ∈ c.newStateEvents, p.1 ≠ s := lookupA_eq_none_iff.mp hch
        refine ⟨?_, h0, hnd, ?_, ?_, ?_, ?_⟩
        · -- the new entry is keyed by s ≠ current state
          show lookupA ((s, c.nextId) :: c.newStateEvents) c.state = none
          rw [lookupA, if_neg hs]
          exact hcur
        · refine List.nodup_cons.mpr ⟨?_, hkeys⟩
          intro hmemk
          rcases List.mem_map.mp hmemk with ⟨p, hp, hpe⟩
          exact hsout p hp hpe
        · refine List.nodup_cons.mpr ⟨?_, hchans⟩
          intro hmemc
          rcases List.mem_map.mp hmemc with ⟨p, hp, hpe⟩
          exact Nat.ne_of_lt (hmem p hp).2.2 hpe
        · intro p hp
          rcases List.mem_cons.mp hp with hp | hp
          · subst hp
            refine ⟨fun hcl => ?_, hnext0, Nat.lt_succ_self _⟩
            exact absurd (hbound _ hcl) (Nat.lt_irrefl _)
          · obtain ⟨ha, hb, hc⟩ := hmem p hp
            exact ⟨ha, hb, Nat.lt_succ_of_lt hc⟩
        · intro n hn
          exact Nat.lt_succ_of_lt (hbound n hn)

theorem updateState_state (c : Sys) (s : State) : (updateState c s).1.state = s := by
  unfold updateState
  by_cases hs : s = c.state
  · rw [if_pos hs]; exact hs.symm
  · rw [if_neg hs]
    cases hch : lookupA c.newStateEvents s with
    | none => rfl
    | some ch => rfl

theorem updateState_prev (c : Sys) (s : State) : (updateState c s).2 = c.state := by
  unfold updateState
  by_cases hs : s = c.state
  · rw [if_pos hs]
  · rw [if_neg hs]
    cases hch : lookupA c.newStateEvents s with
    | none => rfl
    | some ch => rfl

theorem updateState_eq_self {c : Sys} {s : State} (h : s = c.state) :
    updateState c s = (c, c.state) := by
  unfold updateState; rw [if_pos h]

theorem updateState_of_pending {c : Sys} {s : State} {ch : Nat}
    (hkeys : (c.newStateEvents.map Prod.fst).Nodup) (hne : ¬s = c.state)
    (hm : (s, ch) ∈ c.newStateEvents) :
    (updateState c s).1 =
      { c with
          state := s
          newStateEvents := eraseA c.newStateEvents s
          closed := ch :: c.closed } := by
  unfold updateState
  rw [if_neg hne, lookupA_eq_of_mem_keysNodup hkeys hm]

theorem mem_events_updateState {c : Sys} {s t : State} {ch : Nat}
    (hm : (s, ch) ∈ c.newStateEvents) (hts : s ≠ t) :
    (s, ch) ∈ (updateState c t).1.newStateEvents := by
  unfold updateState
  by_cases htc : t = c.state
  · rw [if_pos htc]; exact hm
  · rw [if_neg htc]
    cases hch : lookupA c.newStateEvents t with
    | none => exact hm
    | some cht => exact mem_eraseA_of_ne hm hts

theorem closed_mono_updateState (c : Sys) (s : State) {n : Nat} (h : n ∈ c.closed) :
    n ∈ (updateState c s).1.closed := by
  unfold updateState
  by_cases hs : s = c.state
  · rw [if_pos hs]; exact h
  · rw [if_neg hs]
    cases hch : lookupA c.newStateEvents s with
    | none => exact h
    | some ch => exact List.mem_cons_of_mem _ h

theorem closed_mono_runSets {n : Nat} :
    ∀ (l : List State) (c : Sys), n ∈ c.closed → n ∈ (runSets c l).closed := by
  intro l
  induction l with
  | nil => intro c h; exact h
  | cons t rest ih => intro c h; exact ih _ (closed_mono_updateState c t h)

theorem chanInv_runSets :
    ∀ (l : List State) (c : Sys), ChanInv c → ChanInv (runSets c l) := by
  intro l
  induction l with
  | nil => intro c h; exact h
  | cons t rest ih => intro c h; exact ih _ (chanInv_updateState h t)

theorem chanInv_runOps :
    ∀ (ops : List Op) (c : Sys), ChanInv c → ChanInv (runOps c ops) := by
  intro ops
  induction ops with
  | nil => intro c h; exact h
  | cons op rest ih =>
      intro c h
      cases op with
      | wait s => exact ih _ (chanInv_waitForState h s)
      | set s => exact ih _ (chanInv_updateState h s)

theorem waitForState_pending {c : Sys} {s : State} (hne : ¬s = c.state) :
    (s, (waitForState c s).2) ∈ (waitForState c s).1.newStateEvents := by
  unfold waitForState
  rw [if_neg hne]
  cases hch : lookupA c.newStateEvents s with
  | some ch => exact lookupA_eq_some_mem hch
  | none => exact List.mem_cons_self _ _

/-- A channel pending for state `s` gets closed by a sequence of `SetState`
calls exactly when the sequence transitions the container into `s`. -/
theorem pending_closed_iff {s : State} {ch : Nat} :
    ∀ (l : List State) (c : Sys), ChanInv c → (s, ch) ∈ c.newStateEvents →
      (ch ∈ (runSets c l).closed ↔ s ∈ l) := by
  intro l
  induction l with
  | nil =>
      intro c hinv hm
      simp only [runSets, List.not_mem_nil, iff_false]
      exact fun hcl => (hinv.2.2.2.2.2.1 _ hm).1 hcl
  | cons t rest ih =>
      intro c hinv hm
      have hkeys := hinv.2.2.2.1
      have hlook : lookupA c.newStateEvents s = some ch :=
        lookupA_eq_of_mem_keysNodup hkeys hm
      have hsne : ¬s = c.state := by
        intro he
        rw [he, hinv.1] at hlook
        cases hlook
      show ch ∈ (runSets (setState c t).1 rest).closed ↔ s ∈ t :: rest
      by_cases hts : t = s
      · subst hts
        have hc' := updateState_of_pending hkeys hsne hm
        refine iff_of_true ?_ (List.mem_cons_self _ _)
        show ch ∈ (runSets (updateState c t).1 rest).closed
        rw [hc']
        exact closed_mono_runSets rest _ (List.mem_cons_self _ _)
      · have step : ch ∈ (runSets (setState c t).1 rest).closed ↔ s ∈ rest :=
          ih _ (chanInv_updateState hinv t)
            (mem_events_updateState hm (fun he => hts he.symm))
        rw [step]
        constructor
        · exact fun h => List.mem_cons_of_mem _ h
        · intro h
          rcases List.mem_cons.mp h with h | h
          · exact absurd h.symm hts
          · exact h

/-- Claim C7: `WaitForState(s)` called when the container is already in `s`
returns the pre-closed channel; called when the state differs, it returns a
channel that is not yet signaled and that a subsequent run of `SetState` calls
closes exactly when (and only when) one of them transitions the container into
`s` — and at most once, since the closed set stays duplicate-free. -/
theorem exec_waitForState_semantics (c : Sys) (s : State) (hinv : ChanInv c) :
    (s = c.state → waitForState c s = (c, 0) ∧ 0 ∈ c.closed) ∧
    (¬s = c.state →
      (waitForState c s).2 ∉ (waitForState c s).1.closed ∧
      ∀ l : List State,
        ((waitForState c s).2 ∈ (runSets (waitForState c s).1 l).closed ↔ s ∈ l) ∧
        (runSets (waitForState c s).1 l).closed.Nodup) := by
  constructor
  · intro he
    refine ⟨?_, hinv.2.1⟩
    unfold waitForState
    rw [if_pos he]
  · intro hne
    have hinv' := chanInv_waitForState hinv s
    have hm := waitForState_pending (c := c) hne
    refine ⟨(hinv'.2.2.2.2.2.1 _ hm).1, ?_⟩
    intro l
    exact ⟨pending_closed_iff l _ hinv' hm, (chanInv_runSets l _ hinv').2.2.1⟩

theorem exec_waitForState_semantics_witness :
    (waitForState (Sys.init State.running) State.running =
        (Sys.init State.running, 0) ∧ 0 ∈ (Sys.init State.running).closed) ∧
    ((waitForState (Sys.init State.created) State.running).2 ∈
        (runSets (waitForState (Sys.init State.created) State.running).1
          [State.stopped, State.running]).closed ↔
      State.running ∈ [State.stopped, State.running]) :=
  ⟨(exec_waitForState_semantics (Sys.init State.running) State.running
      (chanInv_init _)).1 rfl,
   (((exec_waitForState_semantics (Sys.init State.created) State.running
      (chanInv_init _)).2 (by decide)).2 [State.stopped, State.running]).1⟩

/-- Claim C9: reachable containers never hold a subscription keyed by their
current state, and `SetState(s)` with `s` equal to the current state returns
the current state, changes nothing and fires no subscription. -/
theorem exec_state_subscription_invariant :
    (∀ (s0 : State) (ops : List Op),
       lookupA (runOps (Sys.init s0) ops).newStateEvents
         (runOps (Sys.init s0) ops).state = none) ∧
    (∀ (c : Sys) (s : State), s = c.state → setState c s = (c, c.state)) := by
  constructor
  · intro s0 ops
    exact (chanInv_runOps ops _ (chanInv_init s0)).1
  · intro c s h
    unfold setState updateState
    rw [if_pos h]

theorem exec_state_subscription_invariant_witness :
    lookupA
        (runOps (Sys.init State.created)
          [Op.wait State.running, Op.set State.running]).newStateEvents
        (runOps (Sys.init State.created)
          [Op.wait State.running, Op.set State.running]).state = none ∧
    setState (Sys.init State.running) State.running =
      (Sys.init State.running, State.running) :=
  ⟨exec_state_subscription_invariant.1 State.created
      [Op.wait State.running, Op.set State.running],
   exec_state_subscription_invariant.2 (Sys.init State.running) State.running rfl⟩

/-! ### `Container.start` / `Container.stop`

Both set an intermediate state, run the infrastructure power operation, and
register `defer func() { c.updateState(finalState) }()`; the deferred closure
reads the value `finalState` holds when the function returns.  In `start`,
`finalState` is explicitly reassigned to `StateStarting` on the error path.
In `stop`, the error path returns without reassigning `finalState`, which
still holds the previous state returned by `updateState(StateStopping)`. -/

inductive OpFault where
  | vmNotSet
  | infraFault
deriving DecidableEq, Repr

/-- `Container.start`; `hasVM` models `c.vm == nil`, `powerOnOk` the outcome of
`containerBase.start` (the remote power-on, outside src). -/
def start (c : Sys) (hasVM : Bool) (powerOnOk : Bool) : Sys × Option OpFault :=
  if hasVM = false then (c, some OpFault.vmNotSet)
  else
    let c1 := (updateState c State.starting).1
    if powerOnOk then
      ((updateState c1 State.running).1, none)
    else
      -- error path: finalState = StateStarting, deferred update keeps Starting
      ((updateState c1 State.starting).1, some OpFault.infraFault)

/-- `Container.stop`; `powerOffOk` models the outcome of `containerBase.stop`.
On the error path `finalState` still holds the pre-stop state, so the deferred
`updateState(finalState)` restores it. -/
def stop (c : Sys) (powerOffOk : Bool) : Sys × Option OpFault :=
  let r := updateState c State.stopping
  if powerOffOk then
    ((updateState r.1 State.stopped).1, none)
  else
    ((updateState r.1 r.2).1, some OpFault.infraFault)

/-- Claim C3 counterexample: a failed `stop` on a Running container leaves the
container Running again — the deferred `updateState(finalState)` did restore
the pre-stop state, contrary to the claim that it is not restored. -/
theorem exec_stop_failure_restores_prior_state :
    (stop (Sys.init State.running) false).1.state = State.running ∧
    ¬(stop (Sys.init State.running) false).1.state = State.stopping := by
  constructor
  · rfl
  · intro h
    cases h

/-- Claim C3 (amended): a failed `start` leaves the state at Starting, but a
failed `stop` restores the state the container had before the stop was
attempted (for example Running), because `finalState` is never reassigned on
the stop error path. -/
theorem exec_start_stop_failure_states (c : Sys) :
    (start c true false).1.state = State.starting ∧
    (start c true false).2 = some OpFault.infraFault ∧
    (stop c false).1.state = c.state ∧
    (stop c false).2 = some OpFault.infraFault := by
  refine ⟨?_, rfl, ?_, rfl⟩
  · show ((updateState (updateState c State.starting).1 State.starting).1).state =
      State.starting
    exact updateState_state _ _
  · show ((updateState (updateState c State.stopping).1
        (updateState c State.stopping).2).1).state = c.state
    rw [updateState_state, updateState_prev]

/-! ### `Commit` (lib/portlayer/exec/commit.go section of container.go)

`Commit` drives the remote infrastructure (spec section 6: create-VM,
power-off, refresh-properties, reconfigure-VM, power-on).  Those collaborators
are not part of src, so their outcomes arrive through an `Env` of scripted
results; the calls `Commit` issues are collected in order.  `containerBase`
and `Handle` internals (`h.updates`, `h.Spec.Spec()`, `h.TargetState()`) are
also outside src and appear here as plain record fields: the handle carries a
backing-VM reference option, the pending spec mutation, the target state, and
the config/runtime snapshots. -/

/-- `types.VirtualMachineConfigInfo` as far as Commit reads it. -/
structure VMConfig where
  changeVersion : Nat
deriving DecidableEq, Repr

inductive PowerState where
  | poweredOn
  | poweredOff
  | suspended
deriving DecidableEq, Repr

/-- `types.VirtualMachineRuntimeInfo` as far as Commit reads it. -/
structure RuntimeInfo where
  powerState : PowerState
deriving DecidableEq, Repr

/-- The pending spec mutation (`h.Spec.Spec()`): the change-version stamp, the
`ExtraConfig` payload (persistent part, nilified while powered on) and an
identifier for the rest of the mutation payload. -/
structure SpecCfg where
  changeVersion : Nat
  extraConfig : Option Nat
  body : Nat
deriving DecidableEq, Repr

/-- `Handle`: backing VM reference or none-if-creation, optional pending spec
mutation, target power state, and the runtime/config snapshots. -/
structure Handle where
  vm : Option Nat
  spec : Option SpecCfg
  targetState : State
  runtime : Option RuntimeInfo
  config : VMConfig
deriving DecidableEq, Repr

/-- Outcome of one reconfigure-VM attempt, as scripted by the environment. -/
inductive RecOutcome where
  | success
  | concurrentAccess
  | fault (code : Nat)
deriving DecidableEq, Repr

/-- Result of one `h.updates` (refresh-properties) round trip. -/
structure Refreshed where
  config : VMConfig
  runtime : RuntimeInfo
deriving DecidableEq, Repr

/-- Scripted outcomes of the remote collaborators consumed by one Commit:
create/stop/start faults (`none` = success), the reconfigure outcome per
attempt, and the `h.updates` result per refresh (indexed by how many refreshes
happened before; `none` = the refresh itself errored). -/
structure Env where
  create : Except Nat Nat
  stopRes : Option Nat
  startRes : Option Nat
  reconfigure : List RecOutcome
  updates : Nat → Option Refreshed

/-- One remote infrastructure call issued by Commit, in order. -/
inductive RemoteCall where
  | createVM
  | powerOff
  | refreshProps
  | reconfigureVM (sent : SpecCfg)
  | powerOn
deriving DecidableEq, Repr

inductive CommitErr where
  | specRequired
  | noSession
  | duplicateID
  | createFault (code : Nat)
  | stopFault (code : Nat)
  | updatesFault
  | reconfigureFault (code : Nat)
  | startFault (code : Nat)
  | retryStillPending
deriving DecidableEq, Repr

/-- What a Commit run produced: its error (none = nil), the final handle, the
remote calls in order, and whether the cache publish (`RefreshFromHandle`,
registered by `defer` for non-creation commits) ran. -/
structure CommitRes where
  result : Option CommitErr
  handle : Handle
  calls : List RemoteCall
  published : Bool
deriving Repr

/-- The reconfigure retry loop of Commit
(`for s := h.Spec.Spec(); ; refresh, s = true, h.Spec.Spec()`).
`cur` is the shared spec object `s` points at: the stamp written into it and
the nilified `ExtraConfig` persist across iterations.  `doRefresh` is the
`refresh` flag, `k` counts earlier `h.updates` calls; a failing refresh keeps
the previous config (`if err == nil` in source).  A `ConcurrentAccess` fault
continues the loop; any other fault returns.  The outcome script drives the
recursion; an exhausted script yields `retryStillPending`, standing for the
source loop still retrying. -/
def reconfigureLoop (env : Env) :
    SpecCfg → Handle → Bool → Nat → List RecOutcome →
      Option CommitErr × Handle × List RemoteCall × Nat
  | _, h, _, k, [] => (some CommitErr.retryStillPending, h, [], k)
  | cur, h, doRefresh, k, o :: rest =>
    let (h1, k1, pre) :=
      if doRefresh then
        match env.updates k with
        | some r =>
            ({ h with config := r.config, runtime := some r.runtime }, k + 1,
             [RemoteCall.refreshProps])
        | none => (h, k + 1, [RemoteCall.refreshProps])
      else (h, k, ([] : List RemoteCall))
    let sent : SpecCfg :=
      { cur with
          changeVersion := h1.config.changeVersion
          extraConfig :=
            if h1.runtime.map RuntimeInfo.powerState = some PowerState.poweredOn then
              none
            else cur.extraConfig }
    match o with
    | RecOutcome.success =>
        (none, h1, pre ++ [RemoteCall.reconfigureVM sent], k1)
    | RecOutcome.concurrentAccess =>
        -- `continue`: the next iteration reuses the mutated shared spec `sent`
        let res := reconfigureLoop env sent h1 true k1 rest
        (res.1, res.2.1, pre ++ [RemoteCall.reconfigureVM sent] ++ res.2.2.1, res.2.2.2)
    | RecOutcome.fault code =>
        (some (CommitErr.reconfigureFault code), h1,
         pre ++ [RemoteCall.reconfigureVM sent], k1)

/-- The stop step of Commit: skipped unless the target state is Stopped; a
duplicate power-off is dropped; otherwise power off, then `h.updates` to pick
up the fresh change-version (aborting Commit if that refresh fails) and clear
the `refresh` flag.  Returns (error, handle, calls, updates-counter, refresh
flag). -/
def stopPhase (env : Env) (h : Handle) :
    Option CommitErr × Handle × List RemoteCall × Nat × Bool :=
  if h.targetState = State.stopped then
    if h.runtime.map RuntimeInfo.powerState = some PowerState.poweredOff then
      (none, h, [], 0, true)
    else
      match env.stopRes with
      | some code => (some (CommitErr.stopFault code), h, [RemoteCall.powerOff], 0, true)
      | none =>
          match env.updates 0 with
          | none =>
              (some CommitErr.updatesFault, h,
               [RemoteCall.powerOff, RemoteCall.refreshProps], 1, true)
          | some r =>
              (none, { h with runtime := some r.runtime, config := r.config },
               [RemoteCall.powerOff, RemoteCall.refreshProps], 1, false)
  else (none, h, [], 0, true)

/-- The reconfigure step of Commit: skipped when the handle carries no pending
spec, and skipped (logged, not fatal) when the runtime snapshot is missing. -/
def reconfigPhase (env : Env) (h : Handle) (k : Nat) (doRefresh : Bool) :
    Option CommitErr × Handle × List RemoteCall × Nat :=
  match h.spec with
  | none => (none, h, [], k)
  | some sp =>
      if h.runtime = none then (none, h, [], k)
      else reconfigureLoop env sp h doRefresh k env.reconfigure

/-- The start step of Commit: skipped unless the target state is Running; a
duplicate power-on is dropped. -/
def startPhase (env : Env) (h : Handle) : Option CommitErr × List RemoteCall :=
  if h.targetState = State.running then
    if h.runtime.map RuntimeInfo.powerState = some PowerState.poweredOn then
      (none, [])
    else
      match env.startRes with
      | some code => (some (CommitErr.startFault code), [RemoteCall.powerOn])
      | none => (none, [RemoteCall.powerOn])
  else (none, [])

/-- Commit after the creation block: stop, reconfigure, register the deferred
cache publish (`RefreshFromHandle`, non-creation only), then start. -/
def commitRest (env : Env) (h : Handle) (creation : Bool)
    (calls0 : List RemoteCall) : CommitRes :=
  match stopPhase env h with
  | (some e, h1, cs1, _, _) => ⟨some e, h1, calls0 ++ cs1, false⟩
  | (none, h1, cs1, k1, refresh1) =>
      match reconfigPhase env h1 k1 refresh1 with
      | (some e, h2, cs2, _) => ⟨some e, h2, calls0 ++ cs1 ++ cs2, false⟩
      | (none, h2, cs2, _) =>
          match startPhase env h2 with
          | (some e, cs3) => ⟨some e, h2, calls0 ++ cs1 ++ cs2 ++ cs3, !creation⟩
          | (none, cs3) => ⟨none, h2, calls0 ++ cs1 ++ cs2 ++ cs3, !creation⟩

/-- `Commit(ctx, sess, h, waitTime)`.  `cacheHit` models
`Containers.Container(h.ExecConfig.ID) != nil`, `hasSession` models
`sess != nil`.  A creation handle (no backing VM) validates spec, session and
duplicate ID before any remote call; a successful create clears the spec. -/
def commit (env : Env) (cacheHit : Bool) (hasSession : Bool) (h0 : Handle) :
    CommitRes :=
  match h0.vm with
  | none =>
      match h0.spec with
      | none => ⟨some CommitErr.specRequired, h0, [], false⟩
      | some _ =>
          if hasSession = false then ⟨some CommitErr.noSession, h0, [], false⟩
          else if cacheHit then ⟨some CommitErr.duplicateID, h0, [], false⟩
          else
            match env.create with
            | Except.error code =>
                ⟨some (CommitErr.createFault code), h0, [RemoteCall.createVM], false⟩
            | Except.ok ref =>
                commitRest env { h0 with vm := some ref, spec := none } true
                  [RemoteCall.createVM]
  | some _ => commitRest env h0 false []

/-- The reconfigure-VM calls among a Commit trace, with the specs they sent. -/
def reconfigCalls (calls : List RemoteCall) : List SpecCfg :=
  calls.filterMap fun c =>
    match c with
    | RemoteCall.reconfigureVM s => some s
    | _ => none

/-- The remote-call trace the retry loop produces when every attempt is
preceded by a successful refresh: attempt `i` (counting from refresh index
`k`) refreshes, then sends the mutation stamped with the freshly read
change-version. -/
def loopTrace (r : Nat → Refreshed) (cur : SpecCfg) : Nat → Nat → List RemoteCall
  | k, 0 =>
      [RemoteCall.refreshProps,
       RemoteCall.reconfigureVM { cur with changeVersion := (r k).config.changeVersion }]
  | k, N + 1 =>
      RemoteCall.refreshProps ::
        RemoteCall.reconfigureVM { cur with changeVersion := (r k).config.changeVersion } ::
          loopTrace r cur (k + 1) N

theorem loopTrace_update (r : Nat → Refreshed) (cur : SpecCfg) (v : Nat) :
    ∀ (N k : Nat), loopTrace r { cur with changeVersion := v } k N = loopTrace r cur k N := by
  intro N
  induction N with
  | zero => intro k; simp [loopTrace]
  | succ N ih => intro k; simp [loopTrace, ih]

theorem reconfigCalls_loopTrace (r : Nat → Refreshed) (cur : SpecCfg) :
    ∀ (N k : Nat),
      reconfigCalls (loopTrace r cur k N) =
        (List.range (N + 1)).map
          (fun i => { cur with changeVersion := (r (k + i)).config.changeVersion }) := by
  intro N
  induction N with
  | zero =>
      intro k
      simp [loopTrace, reconfigCalls, List.range_succ_eq_map, List.range_zero]
  | succ N ih =>
      intro k
      rw [List.range_succ_eq_map, List.map_cons, List.map_map]
      show reconfigCalls
          (RemoteCall.refreshProps ::
            RemoteCall.reconfigureVM
              { cur with changeVersion := (r k).config.changeVersion } ::
              loopTrace r cur (k + 1) N) = _
      simp only [reconfigCalls, List.filterMap_cons]
      rw [← reconfigCalls, ih (k + 1)]
      refine congrArg₂ _ (by simp) ?_
      refine List.map_congr_left ?_
      intro a _
      have hx : k + 1 + a = k + (a + 1) := by omega
      simp [Function.comp, hx]

theorem reconfigureLoop_step_success (env : Env) {k : Nat} {rk : Refreshed}
    (hk : env.updates k = some rk)
    (hp : rk.runtime.powerState = PowerState.poweredOff)
    (cur : SpecCfg) (h : Handle) (rest : List RecOutcome) :
    reconfigureLoop env cur h true k (RecOutcome.success :: rest) =
      (none, { h with config := rk.config, runtime := some rk.runtime },
       [RemoteCall.refreshProps,
        RemoteCall.reconfigureVM
          { cur with changeVersion := rk.config.changeVersion }],
       k + 1) := by
  simp [reconfigureLoop, hk, hp]

theorem reconfigureLoop_step_fault (env : Env) {k : Nat} {rk : Refreshed}
    (hk : env.updates k = some rk)
    (hp : rk.runtime.powerState = PowerState.poweredOff)
    (cur : SpecCfg) (h : Handle) (rest : List RecOutcome) (code : Nat) :
    reconfigureLoop env cur h true k (RecOutcome.fault code :: rest) =
      (some (CommitErr.reconfigureFault code),
       { h with config := rk.config, runtime := some rk.runtime },
       [RemoteCall.refreshProps,
        RemoteCall.reconfigureVM
          { cur with changeVersion := rk.config.changeVersion }],
       k + 1) := by
  simp [reconfigureLoop, hk, hp]

theorem reconfigureLoop_step_ca (env : Env) {k : Nat} {rk : Refreshed}
    (hk : env.updates k = some rk)
    (hp : rk.runtime.powerState = PowerState.poweredOff)
    (cur : SpecCfg) (h : Handle) (rest : List RecOutcome) :
    reconfigureLoop env cur h true k (RecOutcome.concurrentAccess :: rest) =
      ((reconfigureLoop env { cur with changeVersion := rk.config.changeVersion }
          { h with config := rk.config, runtime := some rk.runtime }
          true (k + 1) rest).1,
       (reconfigureLoop env { cur with changeVersion := rk.config.changeVersion }
          { h with config := rk.config, runtime := some rk.runtime }
          true (k + 1) rest).2.1,
       RemoteCall.refreshProps ::
         RemoteCall.reconfigureVM
           { cur with changeVersion := rk.config.changeVersion } ::
           (reconfigureLoop env { cur with changeVersion := rk.config.changeVersion }
              { h with config := rk.config, runtime := some rk.runtime }
              true (k + 1) rest).2.2.1,
       (reconfigureLoop env { cur with changeVersion := rk.config.changeVersion }
          { h with config := rk.config, runtime := some rk.runtime }
          true (k + 1) rest).2.2.2) := by
  simp [reconfigureLoop, hk, hp]

/-- Behavior of the retry loop on a script of `N` ConcurrentAccess faults
followed by one terminal outcome: every attempt refreshes and stamps the
freshly read change-version, the loop performs exactly `N + 1` attempts, and
the terminal outcome decides the final result. -/
theorem reconfigureLoop_ca_terminal (env : Env) (r : Nat → Refreshed)
    (hupd : ∀ i, env.updates i = some (r i))
    (hpow : ∀ i, (r i).runtime.powerState = PowerState.poweredOff) :
    ∀ (N k : Nat) (cur : SpecCfg) (h : Handle) (o : RecOutcome),
      o ≠ RecOutcome.concurrentAccess →
      reconfigureLoop env cur h true k
          (List.replicate N RecOutcome.concurrentAccess ++ [o]) =
        ((match o with
          | RecOutcome.success => none
          | RecOutcome.concurrentAccess => none
          | RecOutcome.fault code => some (CommitErr.reconfigureFault code)),
         { h with config := (r (k + N)).config, runtime := some (r (k + N)).runtime },
         loopTrace r cur k N,
         k + N + 1) := by
  intro N
  induction N with
  | zero =>
      intro k cur h o hno
      cases o with
      | concurrentAccess => exact absurd rfl hno
      | success =>
          show reconfigureLoop env cur h true k (RecOutcome.success :: []) = _
          rw [reconfigureLoop_step_success env (hupd k) (hpow k)]
          simp [loopTrace]
      | fault code =>
          show reconfigureLoop env cur h true k (RecOutcome.fault code :: []) = _
          rw [reconfigureLoop_step_fault env (hupd k) (hpow k)]
          simp [loopTrace]
  | succ N ih =>
      intro k cur h o hno
      have hrep : List.replicate (N + 1) RecOutcome.concurrentAccess ++ [o] =
          RecOutcome.concurrentAccess ::
            (List.replicate N RecOutcome.concurrentAccess ++ [o]) := by
        simp [List.replicate_succ]
      rw [hrep, reconfigureLoop_step_ca env (hupd k) (hpow k)]
      rw [ih (k + 1) { cur with changeVersion := (r k).config.changeVersion }
          { h with config := (r k).config, runtime := some (r k).runtime } o hno]
      have harith : k + 1 + N = k + (N + 1) := by omega
      simp [loopTrace, loopTrace_update, harith]

/-- The stop phase never touches the pending spec and issues no
reconfigure-VM call. -/
theorem stopPhase_frame (env : Env) (h : Handle) :
    (stopPhase env h).2.1.spec = h.spec ∧
    reconfigCalls (stopPhase env h).2.2.1 = [] := by
  unfold stopPhase
  by_cases h1 : h.targetState = State.stopped
  · rw [if_pos h1]
    by_cases h2 : h.runtime.map RuntimeInfo.powerState = some PowerState.poweredOff
    · rw [if_pos h2]
      exact ⟨rfl, rfl⟩
    · rw [if_neg h2]
      cases hsr : env.stopRes with
      | some code => exact ⟨rfl, rfl⟩
      | none =>
          cases hup : env.updates 0 with
          | none => exact ⟨rfl, rfl⟩
          | some rr => exact ⟨rfl, rfl⟩
  · rw [if_neg h1]
    exact ⟨rfl, rfl⟩

theorem reconfigCalls_append (a b : List RemoteCall) :
    reconfigCalls (a ++ b) = reconfigCalls a ++ reconfigCalls b := by
  simp [reconfigCalls]

/-- The start phase issues no reconfigure-VM call. -/
theorem startPhase_calls (env : Env) (h : Handle) :
    reconfigCalls (startPhase env h).2 = [] := by
  unfold startPhase
  by_cases h1 : h.targetState = State.running
  · rw [if_pos h1]
    by_cases h2 : h.runtime.map RuntimeInfo.powerState = some PowerState.poweredOn
    · rw [if_pos h2]
      rfl
    · rw [if_neg h2]
      cases hsr : env.startRes with
      | some code => rfl
      | none => rfl
  · rw [if_neg h1]
    rfl

theorem reconfigPhase_no_spec (env : Env) {h : Handle} (hsp : h.spec = none)
    (k : Nat) (doRefresh : Bool) :
    reconfigPhase env h k doRefresh = (none, h, [], k) := by
  unfold reconfigPhase
  rw [hsp]

/-- After the creation block cleared the spec, the rest of Commit issues no
reconfigure-VM call and the final handle still has no spec. -/
theorem commitRest_no_spec (env : Env) (h : Handle) (creation : Bool)
    (calls0 : List RemoteCall) (hsp : h.spec = none)
    (hc0 : reconfigCalls calls0 = []) :
    reconfigCalls (commitRest env h creation calls0).calls = [] ∧
    (commitRest env h creation calls0).handle.spec = none := by
  obtain ⟨hspec1, hcalls1⟩ := stopPhase_frame env h
  unfold commitRest
  rcases hst : stopPhase env h with ⟨e, h1, cs1, k1, rf1⟩
  rw [hst] at hspec1 hcalls1
  dsimp only at hspec1 hcalls1
  have hsp1 : h1.spec = none := by rw [hspec1, hsp]
  cases e with
  | some err =>
      dsimp only
      refine ⟨?_, hsp1⟩
      rw [reconfigCalls_append, hc0, hcalls1]
      rfl
  | none =>
      dsimp only
      rw [reconfigPhase_no_spec env hsp1 k1 rf1]
      dsimp only
      have hstart := startPhase_calls env h1
      rcases hsp2 : startPhase env h1 with ⟨e2, cs3⟩
      rw [hsp2] at hstart
      dsimp only at hstart
      cases e2 with
      | some err =>
          dsimp only
          refine ⟨?_, hsp1⟩
          rw [reconfigCalls_append, reconfigCalls_append, reconfigCalls_append,
            hc0, hcalls1, hstart]
          rfl
      | none =>
          dsimp only
          refine ⟨?_, hsp1⟩
          rw [reconfigCalls_append, reconfigCalls_append, reconfigCalls_append,
            hc0, hcalls1, hstart]
          rfl

/-- Claim C1: on a handle with a pending spec mutation, every reconfigure
attempt stamps the mutation with the change-version known at that attempt;
a ConcurrentAccess fault refreshes config/runtime and retries the same
mutation; for exactly `N` ConcurrentAccess faults followed by success, Commit
performs exactly `N + 1` reconfigure attempts and proceeds (returns nil); any
other fault makes Commit return that error after exactly the attempts made so
far, with no further attempt. -/
theorem commit_concurrent_access_retry
    (env : Env) (N : Nat) (cacheHit hasSession : Bool) (h : Handle)
    (sp : SpecCfg) (rt : RuntimeInfo) (vmref : Nat) (r : Nat → Refreshed)
    (hvm : h.vm = some vmref) (hspec : h.spec = some sp)
    (hrt : h.runtime = some rt) (htgt : h.targetState = State.running)
    (hupd : ∀ i, env.updates i = some (r i))
    (hpow : ∀ i, (r i).runtime.powerState = PowerState.poweredOff)
    (hstart : env.startRes = none) :
    (env.reconfigure =
        List.replicate N RecOutcome.concurrentAccess ++ [RecOutcome.success] →
      (commit env cacheHit hasSession h).result = none ∧
      reconfigCalls (commit env cacheHit hasSession h).calls =
        (List.range (N + 1)).map
          (fun i => { sp with changeVersion := (r i).config.changeVersion })) ∧
    (∀ code,
      env.reconfigure =
          List.replicate N RecOutcome.concurrentAccess ++ [RecOutcome.fault code] →
      (commit env cacheHit hasSession h).result =
          some (CommitErr.reconfigureFault code) ∧
      (reconfigCalls (commit env cacheHit hasSession h).calls).length = N + 1) := by
  have hcommit : commit env cacheHit hasSession h = commitRest env h false [] := by
    unfold commit
    rw [hvm]
  have hstop : stopPhase env h = (none, h, [], 0, true) := by
    unfold stopPhase
    rw [htgt]
    simp
  have hrecfg : reconfigPhase env h 0 true =
      reconfigureLoop env sp h true 0 env.reconfigure := by
    unfold reconfigPhase
    rw [hspec, hrt]
    simp
  constructor
  · intro hscript
    have hloop := reconfigureLoop_ca_terminal env r hupd hpow N 0 sp h
      RecOutcome.success (by intro hx; cases hx)
    rw [hscript] at hrecfg
    rw [hloop] at hrecfg
    dsimp only at hrecfg
    have hstartPh : startPhase env
        { h with config := (r (0 + N)).config, runtime := some (r (0 + N)).runtime } =
        (none, [RemoteCall.powerOn]) := by
      unfold startPhase
      dsimp only
      rw [htgt]
      simp [hpow, hstart]
    rw [hcommit]
    unfold commitRest
    rw [hstop]
    dsimp only
    rw [hrecfg]
    dsimp only
    rw [hstartPh]
    dsimp only
    refine ⟨rfl, ?_⟩
    rw [reconfigCalls_append, reconfigCalls_append, reconfigCalls_append,
      reconfigCalls_loopTrace]
    simp [reconfigCalls]
  · intro code hscript
    have hloop := reconfigureLoop_ca_terminal env r hupd hpow N 0 sp h
      (RecOutcome.fault code) (by intro hx; cases hx)
    rw [hscript] at hrecfg
    rw [hloop] at hrecfg
    dsimp only at hrecfg
    rw [hcommit]
    unfold commitRest
    rw [hstop]
    dsimp only
    rw [hrecfg]
    dsimp only
    refine ⟨rfl, ?_⟩
    rw [reconfigCalls_append, reconfigCalls_append, reconfigCalls_loopTrace]
    simp [reconfigCalls]

/-- Concrete run for `commit_concurrent_access_retry`: one ConcurrentAccess
fault, then success; two reconfigure attempts stamped with the change-versions
read by the two refreshes. -/
theorem commit_concurrent_access_retry_witness :
    (commit
        { create := Except.ok 0, stopRes := none, startRes := none,
          reconfigure := [RecOutcome.concurrentAccess, RecOutcome.success],
          updates := fun i =>
            some ⟨⟨100 + i⟩, ⟨PowerState.poweredOff⟩⟩ }
        false true
        { vm := some 7, spec := some ⟨0, some 5, 42⟩,
          targetState := State.running,
          runtime := some ⟨PowerState.poweredOff⟩, config := ⟨99⟩ }).result = none ∧
    reconfigCalls
        (commit
          { create := Except.ok 0, stopRes := none, startRes := none,
            reconfigure := [RecOutcome.concurrentAccess, RecOutcome.success],
            updates := fun i =>
              some ⟨⟨100 + i⟩, ⟨PowerState.poweredOff⟩⟩ }
          false true
          { vm := some 7, spec := some ⟨0, some 5, 42⟩,
            targetState := State.running,
            runtime := some ⟨PowerState.poweredOff⟩, config := ⟨99⟩ }).calls =
      [⟨100, some 5, 42⟩, ⟨101, some 5, 42⟩] := by
  have h := (commit_concurrent_access_retry
    { create := Except.ok 0, stopRes := none, startRes := none,
      reconfigure := [RecOutcome.concurrentAccess, RecOutcome.success],
      updates := fun i => some ⟨⟨100 + i⟩, ⟨PowerState.poweredOff⟩⟩ }
    1 false true
    { vm := some 7, spec := some ⟨0, some 5, 42⟩,
      targetState := State.running,
      runtime := some ⟨PowerState.poweredOff⟩, config := ⟨99⟩ }
    ⟨0, some 5, 42⟩ ⟨PowerState.poweredOff⟩ 7
    (fun i => ⟨⟨100 + i⟩, ⟨PowerState.poweredOff⟩⟩)
    rfl rfl rfl rfl (fun i => rfl) (fun i => rfl) rfl).1 rfl
  refine ⟨h.1, ?_⟩
  rw [h.2]
  rfl

/-- Claim C2: Commit on a creation handle validates spec, session and
duplicate ID before any remote call, and a successful creation clears the
spec, so the same Commit issues no reconfigure call. -/
theorem commit_creation_validation
    (env : Env) (cacheHit hasSession : Bool) (h : Handle) (hvm : h.vm = none) :
    (h.spec = none →
      commit env cacheHit hasSession h = ⟨some CommitErr.specRequired, h, [], false⟩) ∧
    (∀ sp, h.spec = some sp → hasSession = false →
      commit env cacheHit hasSession h = ⟨some CommitErr.noSession, h, [], false⟩) ∧
    (∀ sp, h.spec = some sp → hasSession = true → cacheHit = true →
      commit env cacheHit hasSession h = ⟨some CommitErr.duplicateID, h, [], false⟩) ∧
    (∀ sp ref, h.spec = some sp → hasSession = true → cacheHit = false →
      env.create = Except.ok ref →
      reconfigCalls (commit env cacheHit hasSession h).calls = [] ∧
      (commit env cacheHit hasSession h).handle.spec = none) := by
  refine ⟨?_, ?_, ?_, ?_⟩
  · intro hsp
    unfold commit
    rw [hvm]
    dsimp only
    rw [hsp]
  · intro sp hsp hsess
    unfold commit
    rw [hvm]
    dsimp only
    rw [hsp]
    dsimp only
    rw [hsess]
    simp
  · intro sp hsp hsess hcache
    unfold commit
    rw [hvm]
    dsimp only
    rw [hsp]
    dsimp only
    rw [hsess, hcache]
    simp
  · intro sp ref hsp hsess hcache hcreate
    have hco : commit env cacheHit hasSession h =
        commitRest env { h with vm := some ref, spec := none } true
          [RemoteCall.createVM] := by
      unfold commit
      rw [hvm]
      dsimp only
      rw [hsp]
      dsimp only
      rw [hsess, hcache, hcreate]
      simp
    rw [hco]
    exact commitRest_no_spec env _ true [RemoteCall.createVM] rfl rfl

/-- Concrete runs for `commit_creation_validation`: each validation failure
returns its error with an empty remote-call trace, and a successful creation
leaves a spec-free handle and a trace without any reconfigure call. -/
theorem commit_creation_validation_witness :
    commit ⟨Except.ok 3, none, none, [], fun _ => none⟩ false true
        ⟨none, none, State.created, none, ⟨0⟩⟩ =
      ⟨some CommitErr.specRequired, ⟨none, none, State.created, none, ⟨0⟩⟩, [], false⟩ ∧
    commit ⟨Except.ok 3, none, none, [], fun _ => none⟩ false false
        ⟨none, some ⟨0, none, 1⟩, State.created, none, ⟨0⟩⟩ =
      ⟨some CommitErr.noSession,
       ⟨none, some ⟨0, none, 1⟩, State.created, none, ⟨0⟩⟩, [], false⟩ ∧
    commit ⟨Except.ok 3, none, none, [], fun _ => none⟩ true true
        ⟨none, some ⟨0, none, 1⟩, State.created, none, ⟨0⟩⟩ =
      ⟨some CommitErr.duplicateID,
       ⟨none, some ⟨0, none, 1⟩, State.created, none, ⟨0⟩⟩, [], false⟩ ∧
    reconfigCalls
        (commit ⟨Except.ok 3, none, none, [], fun _ => none⟩ false true
          ⟨none, some ⟨0, none, 1⟩, State.created, none, ⟨0⟩⟩).calls = [] ∧
    (commit ⟨Except.ok 3, none, none, [], fun _ => none⟩ false true
        ⟨none, some ⟨0, none, 1⟩, State.created, none, ⟨0⟩⟩).handle.spec = none :=
  ⟨(commit_creation_validation ⟨Except.ok 3, none, none, [], fun _ => none⟩
      false true ⟨none, none, State.created, none, ⟨0⟩⟩ rfl).1 rfl,
   (commit_creation_validation ⟨Except.ok 3, none, none, [], fun _ => none⟩
      false false ⟨none, some ⟨0, none, 1⟩, State.created, none, ⟨0⟩⟩ rfl).2.1
      ⟨0, none, 1⟩ rfl rfl,
   (commit_creation_validation ⟨Except.ok 3, none, none, [], fun _ => none⟩
      true true ⟨none, some ⟨0, none, 1⟩, State.created, none, ⟨0⟩⟩ rfl).2.2.1
      ⟨0, none, 1⟩ rfl rfl rfl,
   ((commit_creation_validation ⟨Except.ok 3, none, none, [], fun _ => none⟩
      false true ⟨none, some ⟨0, none, 1⟩, State.created, none, ⟨0⟩⟩ rfl).2.2.2
      ⟨0, none, 1⟩ 3 rfl rfl rfl rfl).1,
   ((commit_creation_validation ⟨Except.ok 3, none, none, [], fun _ => none⟩
      false true ⟨none, some ⟨0, none, 1⟩, State.created, none, ⟨0⟩⟩ rfl).2.2.2
      ⟨0, none, 1⟩ 3 rfl rfl rfl rfl).2⟩

end Exec

namespace Network

/-! ### lib/portlayer/network/endpoint.go

`Endpoint` holds two Go maps: `ports map[Port]interface{}` and
`aliases map[string][]alias`.  `copy()` does `*other = *e` (all fields copied,
map references included) and then replaces `other.ports` with a fresh map
holding the same entries — so the clone owns its ports but shares the aliases
map.  To express that sharing, maps live in a store (`NetStore`) and an
endpoint holds reference ids into it; `copy` allocates a fresh ports
reference and keeps the aliases reference.  The `container`/`scope` pointers
are abbreviated to the names the functions here read
(`e.container.Name()`, `e.scope.Name()`). -/

/-- `alias`: name and the container it applies to.  The `ep` back-pointer is
the endpoint the operations below receive. -/
structure Alias where
  name : String
  container : String
deriving DecidableEq, Repr

/-- `badAlias = alias{}`. -/
def badAlias : Alias := ⟨"", ""⟩

/-- `Port` values of the network package (for example "80/tcp"). -/
abbrev NPort := String

/-- The heap of Go maps referenced by endpoints: port sets and alias maps. -/
structure NetStore where
  portsH : List (Nat × List NPort)
  aliasesH : List (Nat × List (String × List Alias))
  nextRef : Nat

/-- `Endpoint`, with its two map fields as references into the store. -/
structure Endpoint where
  containerName : String
  scopeName : String
  portsRef : Nat
  aliasesRef : Nat
deriving DecidableEq, Repr

def portsOf (st : NetStore) (e : Endpoint) : List NPort :=
  (lookupA st.portsH e.portsRef).getD []

def aliasMapOf (st : NetStore) (e : Endpoint) : List (String × List Alias) :=
  (lookupA st.aliasesH e.aliasesRef).getD []

/-- `Endpoint.getAliases(con)`: empty `con` means the endpoint's own
container. -/
def getAliases (st : NetStore) (e : Endpoint) (con : String) : List Alias :=
  let key := if con = "" then e.containerName else con
  (lookupA (aliasMapOf st e) key).getD []

/-- `alias.scopedName()`: network-scoped when the alias name is among the
aliases registered for the endpoint's own container, otherwise qualified with
the endpoint's container name. -/
def scopedName (st : NetStore) (e : Endpoint) (a : Alias) : String :=
  if (getAliases st e "").any (fun al => a.name = al.name) then
    e.scopeName ++ ":" ++ a.name
  else
    e.scopeName ++ ":" ++ e.containerName ++ ":" ++ a.name

/-- `Endpoint.addAlias(con, a)`: rejects an empty name, defaults `con` to the
endpoint's own container, returns the existing alias with `true` when the
(container, name) pair is already present, otherwise appends a new alias and
returns it with `false`. -/
def addAlias (st : NetStore) (e : Endpoint) (con a : String) :
    NetStore × Alias × Bool :=
  if a = "" then (st, badAlias, false)
  else
    let conKey := if con = "" then e.containerName else con
    let m := aliasMapOf st e
    let aliases := (lookupA m conKey).getD []
    match aliases.find? (fun as => as.name = a) with
    | some asv => (st, asv, true)
    | none =>
        let na : Alias := ⟨a, conKey⟩
        ({ st with
            aliasesH := insertA st.aliasesH e.aliasesRef
              (insertA m conKey (aliases ++ [na])) }, na, false)

/-- `Endpoint.addPort(p)`: "already exposed" is an error, otherwise the port
is added to the endpoint's own port map. -/
def addPort (st : NetStore) (e : Endpoint) (p : NPort) : Except String NetStore :=
  let ps := portsOf st e
  if p ∈ ps then Except.error ("port " ++ p ++ " already exposed")
  else Except.ok { st with portsH := insertA st.portsH e.portsRef (ps ++ [p]) }

/-- `Endpoint.copy()`: `*other = *e`, then a fresh ports map with the same
entries; the aliases map reference is the copied field. -/
def copy (st : NetStore) (e : Endpoint) : NetStore × Endpoint :=
  (⟨insertA st.portsH st.nextRef (portsOf st e), st.aliasesH, st.nextRef + 1⟩,
   { e with portsRef := st.nextRef })

/-- An endpoint of container "self" on scope "net"; map references 0 (ports)
and 1 (aliases) into `netStore0`. -/
def eCex : Endpoint := ⟨"self", "net", 0, 1⟩

def netStore0 : NetStore := ⟨[(0, [])], [(1, [])], 2⟩

/-- Store after `addAlias("", "web")`: "web" is an alias of the endpoint's own
container. -/
def stWeb1 : NetStore := (addAlias netStore0 eCex "" "web").1

/-- Store after a further `addAlias("other", "web")`: the same alias name now
also refers to container "other". -/
def stWeb2 : NetStore := (addAlias stWeb1 eCex "other" "web").1

/-- The alias registered for container "other". -/
def aWeb : Alias := (addAlias stWeb1 eCex "other" "web").2.1

/-- Claim C8 counterexample: the alias "web" refers to container "other", not
to the endpoint's own container "self", yet `scopedName` resolves it to the
network-scoped form "net:web" — not to a qualified "scope:container:alias"
form — because an own-container alias with the same name exists. -/
theorem scopedName_other_container_collision :
    aWeb.container = "other" ∧
    eCex.containerName = "self" ∧
    aWeb ∈ getAliases stWeb2 eCex "other" ∧
    scopedName stWeb2 eCex aWeb = "net:web" ∧
    scopedName stWeb2 eCex aWeb ≠
      eCex.scopeName ++ ":" ++ eCex.containerName ++ ":" ++ aWeb.name ∧
    scopedName stWeb2 eCex aWeb ≠
      eCex.scopeName ++ ":" ++ aWeb.container ++ ":" ++ aWeb.name := by
  refine ⟨rfl, rfl, ?_, rfl, ?_, ?_⟩
  · decide
  · decide
  · decide

/-- Claim C8 (amended): an alias registered for the endpoint's own container
resolves to the network-scoped form "scope:alias"; any alias whose name
matches one of the own-container aliases also resolves to that form; an alias
whose name matches no own-container alias resolves to the qualified form
"scope:container:alias", where the container component is the endpoint's own
container's name. -/
theorem network_scopedName_resolution (st : NetStore) (e : Endpoint) (a : Alias) :
    (a ∈ getAliases st e "" →
      scopedName st e a = e.scopeName ++ ":" ++ a.name) ∧
    ((∃ al ∈ getAliases st e "", al.name = a.name) →
      scopedName st e a = e.scopeName ++ ":" ++ a.name) ∧
    ((∀ al ∈ getAliases st e "", al.name ≠ a.name) →
      scopedName st e a = e.scopeName ++ ":" ++ e.containerName ++ ":" ++ a.name) := by
  refine ⟨?_, ?_, ?_⟩
  · intro ha
    have hb : (getAliases st e "").any (fun al => a.name = al.name) = true :=
      List.any_eq_true.mpr ⟨a, ha, by simp⟩
    simp [scopedName, hb]
  · intro hex
    obtain ⟨al, hal, hne⟩ := hex
    have hb : (getAliases st e "").any (fun al => a.name = al.name) = true :=
      List.any_eq_true.mpr ⟨al, hal, by simp [hne]⟩
    simp [scopedName, hb]
  · intro hall
    have hb : (getAliases st e "").any (fun al => a.name = al.name) = false := by
      rw [List.any_eq_false]
      intro al hal
      simp only [decide_eq_true_eq]
      exact fun he => hall al hal (he.symm)
    simp [scopedName, hb]

theorem network_scopedName_resolution_witness :
    scopedName stWeb2 eCex ⟨"web", "self"⟩ = "net:web" ∧
    scopedName stWeb2 eCex ⟨"db", "other"⟩ = "net:self:db" :=
  ⟨(network_scopedName_resolution stWeb2 eCex ⟨"web", "self"⟩).1 (by decide),
   (network_scopedName_resolution stWeb2 eCex ⟨"db", "other"⟩).2.2 (by decide)⟩

/-- `addPort` on one endpoint extends exactly its own port list: any endpoint
whose ports reference differs is untouched. -/
theorem addPort_frame (st : NetStore) (e1 e2 : Endpoint) (p : NPort)
    (st2 : NetStore) (hne12 : e2.portsRef ≠ e1.portsRef)
    (hadd : addPort st e1 p = Except.ok st2) :
    portsOf st2 e2 = portsOf st e2 ∧ portsOf st2 e1 = portsOf st e1 ++ [p] := by
  unfold addPort at hadd
  dsimp only at hadd
  by_cases hp : p ∈ portsOf st e1
  · rw [if_pos hp] at hadd
    cases hadd
  · rw [if_neg hp] at hadd
    injection hadd with h2
    subst h2
    constructor
    · show (lookupA (insertA st.portsH e1.portsRef (portsOf st e1 ++ [p]))
          e2.portsRef).getD [] = _
      rw [lookupA_insertA_ne _ _ hne12]
      rfl
    · show (lookupA (insertA st.portsH e1.portsRef (portsOf st e1 ++ [p]))
          e1.portsRef).getD [] = _
      rw [lookupA_insertA_self]
      rfl

/-- The alias returned by `addAlias` (added or already present) is visible via
`getAliases` on any endpoint sharing the aliases reference and container
name — in particular on the original endpoint after an `addAlias` on a
`copy()` clone. -/
theorem addAlias_visible (st : NetStore) (e1 e2 : Endpoint)
    (href : e1.aliasesRef = e2.aliasesRef) (hcn : e1.containerName = e2.containerName)
    (con nm : String) (hnm : ¬nm = "") :
    (addAlias st e1 con nm).2.1 ∈ getAliases (addAlias st e1 con nm).1 e2 con := by
  unfold addAlias getAliases aliasMapOf
  rw [if_neg hnm, ← href, ← hcn]
  dsimp only
  cases hf : ((lookupA ((lookupA st.aliasesH e1.aliasesRef).getD [])
      (if con = "" then e1.containerName else con)).getD []).find?
      (fun as => as.name = nm) with
  | some asv =>
      dsimp only
      exact List.mem_of_find?_eq_some hf
  | none =>
      dsimp only
      rw [lookupA_insertA_self, Option.getD_some, lookupA_insertA_self,
        Option.getD_some]
      exact List.mem_append_right _ (List.mem_cons_self _ _)

/-- Claim C10: `copy()` yields a clone whose port set starts out equal to the
original's and is independently owned — `addPort` on either side leaves the
other side's ports unchanged — while the aliases map reference is shared, so
an `addAlias` performed on the clone is visible through `getAliases` on the
original endpoint. -/
theorem endpoint_copy_frame (st : NetStore) (e : Endpoint)
    (hwf : e.portsRef < st.nextRef) :
    portsOf (copy st e).1 (copy st e).2 = portsOf st e ∧
    portsOf (copy st e).1 e = portsOf st e ∧
    (copy st e).2.aliasesRef = e.aliasesRef ∧
    (∀ p st2, addPort (copy st e).1 (copy st e).2 p = Except.ok st2 →
      portsOf st2 e = portsOf st e ∧
      portsOf st2 (copy st e).2 = portsOf st e ++ [p]) ∧
    (∀ p st2, addPort (copy st e).1 e p = Except.ok st2 →
      portsOf st2 (copy st e).2 = portsOf st e) ∧
    (∀ con nm, ¬nm = "" →
      (addAlias (copy st e).1 (copy st e).2 con nm).2.1 ∈
        getAliases (addAlias (copy st e).1 (copy st e).2 con nm).1 e con) := by
  have hne : e.portsRef ≠ st.nextRef := Nat.ne_of_lt hwf
  have hclone : portsOf (copy st e).1 (copy st e).2 = portsOf st e := by
    unfold copy portsOf
    dsimp only
    rw [lookupA_insertA_self]
    rfl
  have horig : portsOf (copy st e).1 e = portsOf st e := by
    unfold copy portsOf
    dsimp only
    rw [lookupA_insertA_ne _ _ hne]
  refine ⟨hclone, horig, rfl, ?_, ?_, ?_⟩
  · intro p st2 hadd
    obtain ⟨h1, h2⟩ := addPort_frame (copy st e).1 (copy st e).2 e p st2 hne hadd
    exact ⟨h1.trans horig, by rw [h2, hclone]⟩
  · intro p st2 hadd
    obtain ⟨h1, h2⟩ := addPort_frame (copy st e).1 e (copy st e).2 p st2
      (fun hh => hne hh.symm) hadd
    exact h1.trans hclone
  · intro con nm hnm
    exact addAlias_visible (copy st e).1 (copy st e).2 e rfl rfl con nm hnm

theorem endpoint_copy_frame_witness :
    portsOf (copy stWeb2 eCex).1 (copy stWeb2 eCex).2 = portsOf stWeb2 eCex ∧
    (copy stWeb2 eCex).2.aliasesRef = eCex.aliasesRef ∧
    (addAlias (copy stWeb2 eCex).1 (copy stWeb2 eCex).2 "peer" "cache").2.1 ∈
      getAliases (addAlias (copy stWeb2 eCex).1 (copy stWeb2 eCex).2
        "peer" "cache").1 eCex "peer" :=
  ⟨(endpoint_copy_frame stWeb2 eCex (by decide)).1,
   (endpoint_copy_frame stWeb2 eCex (by decide)).2.2.1,
   (endpoint_copy_frame stWeb2 eCex (by decide)).2.2.2.2.2 "peer" "cache"
     (by decide)⟩

end Network

namespace Engine

/-! ### lib/apiservers/engine/backends/container.go — port mapping

`containerByPort` (host port string → container id) is the global ownership
index, guarded by `cbpLock`; here it is a field of `PMState` together with the
state of the host port allocator.  `portMapper.MapPort`/`UnmapPort` talk to
the host NAT facility, an external collaborator (spec section 6) whose calls
report success; `portallocator` is the vendored Docker allocator, modelled as
a stream of port numbers. -/

/-- `nat.PortBinding`: requested host IP and host port, both strings; an empty
host port means "allocate one". -/
structure PortBinding where
  hostIP : String
  hostPort : String
deriving DecidableEq, Repr

/-- `nat.Port` (for example "80/tcp"), already split into proto and port; the
`nat.SplitProtoPort`/`nat.NewPort` round trip lives in the vendored library. -/
structure PortKey where
  proto : String
  port : String
deriving DecidableEq, Repr

/-- `nat.PortMap`: container port → its requested bindings. -/
abbrev PortMap := List (PortKey × List PortBinding)

/-- `portMapping` from the source: parsed host port, its string form and the
container port. -/
structure PortMapping where
  intHostPort : Nat
  strHostPort : String
  portProto : PortKey
deriving DecidableEq, Repr

/-- Modelled from the spec: `requestHostPort` calls the vendored Docker
`portallocator.RequestPortInRange(nil, proto, 0, 0)` (not under src); the spec
says a port is allocated from the host's ephemeral range.  The allocator is a
counter into a stream `fresh` of port numbers. -/
structure Alloc where
  next : Nat
  fresh : Nat → Nat

def requestHostPort (a : Alloc) : Nat × Alloc :=
  (a.fresh a.next, ⟨a.next + 1, a.fresh⟩)

/-- `strconv.Atoi` on the digit strings used for ports. -/
def digitVal (c : Char) : Option Nat :=
  if c.isDigit then some (c.toNat - 48) else none

def atoiGo : List Char → Nat → Option Nat
  | [], acc => some acc
  | c :: cs, acc =>
      match digitVal c with
      | none => none
      | some d => atoiGo cs (acc * 10 + d)

def atoi (s : String) : Option Nat :=
  match s.data with
  | [] => none
  | cs => atoiGo cs 0

/-- Inner loop of `unrollPortMap` over `pb []nat.PortBinding`.  Go's
`for _, p := range pb` iterates over copies of the slice elements, so the
write-back `p.HostPort = strconv.Itoa(hostPort)` (annotated
`// update the hostconfig` in source) lands in the local copy only; the
caller-visible binding list — returned here next to the mappings — keeps the
original elements. -/
def unrollEntry (nport : PortKey) :
    Alloc → List PortBinding →
      Except String (List PortMapping × List PortBinding × Alloc)
  | a, [] => Except.ok ([], [], a)
  | a, p :: rest =>
      let step : Except String (Nat × Alloc) :=
        if p.hostPort = "" then
          Except.ok (requestHostPort a)
        else
          match atoi p.hostPort with
          | none => Except.error "invalid host port"
          | some hp => Except.ok (hp, a)
      match step with
      | Except.error e => Except.error e
      | Except.ok (hp, a1) =>
          match unrollEntry nport a1 rest with
          | Except.error e => Except.error e
          | Except.ok (ms, bs, a2) =>
              Except.ok (⟨hp, toString hp, nport⟩ :: ms, p :: bs, a2)

/-- `unrollPortMap(portMap)`: expands the bindings into concrete host-port
tuples, allocating a host port where none is requested.  Returns the mappings,
the caller-visible port map after the call, and the allocator state. -/
def unrollPortMap :
    Alloc → PortMap → Except String (List PortMapping × PortMap × Alloc)
  | a, [] => Except.ok ([], [], a)
  | a, (key, pb) :: rest =>
      match unrollEntry key a pb with
      | Except.error e => Except.error e
      | Except.ok (ms, bs, a1) =>
          match unrollPortMap a1 rest with
          | Except.error e => Except.error e
          | Except.ok (ms2, pm2, a2) => Except.ok (ms ++ ms2, (key, bs) :: pm2, a2)

/-- The bindings `unrollEntry` hands back are the original slice elements. -/
theorem unrollEntry_bindings_eq (nport : PortKey) :
    ∀ (bs : List PortBinding) (a : Alloc) (r),
      unrollEntry nport a bs = Except.ok r → r.2.1 = bs := by
  intro bs
  induction bs with
  | nil =>
      intro a r hr
      cases hr
      rfl
  | cons p rest ih =>
      intro a r hr
      unfold unrollEntry at hr
      dsimp only at hr
      by_cases hp : p.hostPort = ""
      · rw [if_pos hp] at hr
        dsimp only [requestHostPort] at hr
        cases hrec : unrollEntry nport ⟨a.next + 1, a.fresh⟩ rest with
        | error e => rw [hrec] at hr; cases hr
        | ok r2 =>
            rw [hrec] at hr
            obtain ⟨ms, bs2, a2⟩ := r2
            cases hr
            simpa using ih _ _ hrec
      · rw [if_neg hp] at hr
        cases hat : atoi p.hostPort with
        | none => rw [hat] at hr; cases hr
        | some hpn =>
            rw [hat] at hr
            dsimp only at hr
            cases hrec : unrollEntry nport a rest with
            | error e => rw [hrec] at hr; cases hr
            | ok r2 =>
                rw [hrec] at hr
                obtain ⟨ms, bs2, a2⟩ := r2
                cases hr
                simpa using ih _ _ hrec

/-- `unrollPortMap` never changes the caller's port map: the allocated host
port is assigned to a range copy of the binding, so the write-back is lost. -/
theorem unrollPortMap_bindings_unchanged :
    ∀ (pm : PortMap) (a : Alloc) (r),
      unrollPortMap a pm = Except.ok r → r.2.1 = pm := by
  intro pm
  induction pm with
  | nil =>
      intro a r hr
      cases hr
      rfl
  | cons e rest ih =>
      intro a r hr
      obtain ⟨key, pb⟩ := e
      unfold unrollPortMap at hr
      cases hent : unrollEntry key a pb with
      | error er => rw [hent] at hr; cases hr
      | ok r1 =>
          rw [hent] at hr
          obtain ⟨ms, bs, a1⟩ := r1
          dsimp only at hr
          cases hrest : unrollPortMap a1 rest with
          | error er => rw [hrest] at hr; cases hr
          | ok r2 =>
              rw [hrest] at hr
              obtain ⟨ms2, pm2, a2⟩ := r2
              cases hr
              have h1 := unrollEntry_bindings_eq key pb a _ hent
              have h2 := ih a1 _ hrest
              dsimp only at h1 h2
              simp [h1, h2]

def pmCex : PortMap := [(⟨"tcp", "80"⟩, [⟨"", ""⟩])]

def allocCex : Alloc := ⟨0, fun _ => 32768⟩

/-- Claim C4 at the failing input: a binding with an unspecified host port
gets port 32768 allocated and recorded in the returned mapping, but the
caller's port map comes back with the binding's host port still empty — the
allocation is never written back where the caller can observe it. -/
theorem unrollPortMap_drops_allocated_port :
    unrollPortMap allocCex pmCex =
      Except.ok ([⟨32768, "32768", ⟨"tcp", "80"⟩⟩],
        [(⟨"tcp", "80"⟩, [⟨"", ""⟩])], ⟨1, allocCex.fresh⟩) := rfl

/-- `containerByPort` (the global port-ownership index) plus the allocator
state — the shared mutable state of the port-mapping subsystem. -/
structure PMState where
  index : List (String × String)
  alloc : Alloc

/-- The index updates performed by the `unmapPorts` loop: a host port absent
from the index is skipped ("skipping already unmapped", logged, not an
error); a present one has its NAT rule removed by `portMapper.UnmapPort`
(external facility, reporting success) and its entry deleted. -/
def unmapFold : List PortMapping → List (String × String) → List (String × String)
  | [], idx => idx
  | p :: rest, idx =>
      match lookupA idx p.strHostPort with
      | none => unmapFold rest idx
      | some _ => unmapFold rest (eraseA idx p.strHostPort)

/-- `unmapPorts(hostconfig)`: nothing to do without bindings; otherwise unroll
the bindings and walk the tuples under `cbpLock`. -/
def unmapPorts (cfg : PortMap) (st : PMState) : Except String PMState :=
  if cfg.isEmpty then Except.ok st
  else
    match unrollPortMap st.alloc cfg with
    | Except.error e => Except.error e
    | Except.ok (ms, _pm, a1) => Except.ok ⟨unmapFold ms st.index, a1⟩

/-- The host-port strings one invocation works on, given the allocator state
it starts from. -/
def unrolledPorts (cfg : PortMap) (a : Alloc) : List String :=
  match unrollPortMap a cfg with
  | Except.ok (ms, _, _) => ms.map PortMapping.strHostPort
  | Except.error _ => []

theorem lookupA_unmapFold_none :
    ∀ (ms : List PortMapping) (idx : List (String × String)) (k : String),
      lookupA idx k = none → lookupA (unmapFold ms idx) k = none := by
  intro ms
  induction ms with
  | nil => intro idx k h; exact h
  | cons p rest ih =>
      intro idx k h
      unfold unmapFold
      cases hl : lookupA idx p.strHostPort with
      | none => exact ih idx k h
      | some v =>
          refine ih _ k ?_
          by_cases hk : k = p.strHostPort
          · subst hk
            exact lookupA_eraseA_self _ _
          · rw [lookupA_eraseA_ne _ hk]
            exact h

theorem lookupA_unmapFold_some :
    ∀ (ms : List PortMapping) (idx : List (String × String)) (k v : String),
      lookupA (unmapFold ms idx) k = some v → lookupA idx k = some v := by
  intro ms
  induction ms with
  | nil => intro idx k v h; exact h
  | cons p rest ih =>
      intro idx k v h
      unfold unmapFold at h
      cases hl : lookupA idx p.strHostPort with
      | none =>
          rw [hl] at h
          exact ih idx k v h
      | some w =>
          rw [hl] at h
          have h2 := ih _ k v h
          by_cases hk : k = p.strHostPort
          · subst hk
            rw [lookupA_eraseA_self] at h2
            cases h2
          · rw [lookupA_eraseA_ne _ hk] at h2
            exact h2

/-- After the loop, none of the processed host ports has an index entry. -/
theorem lookupA_unmapFold_processed :
    ∀ (ms : List PortMapping) (idx : List (String × String)),
      ∀ hp ∈ ms.map PortMapping.strHostPort,
        lookupA (unmapFold ms idx) hp = none := by
  intro ms
  induction ms with
  | nil => intro idx hp h; cases h
  | cons p rest ih =>
      intro idx hp h
      rcases List.mem_cons.mp h with h | h
      · subst h
        unfold unmapFold
        cases hl : lookupA idx p.strHostPort with
        | none =>
            exact lookupA_unmapFold_none rest idx _ hl
        | some v =>
            exact lookupA_unmapFold_none rest _ _ (lookupA_eraseA_self _ _)
      · unfold unmapFold
        cases hl : lookupA idx p.strHostPort with
        | none => exact ih idx hp h
        | some v => exact ih _ hp h

/-- Whether `unrollEntry` succeeds does not depend on the allocator state
(allocation itself never fails; only a malformed explicit host port does). -/
theorem unrollEntry_ok_indep (nport : PortKey) :
    ∀ (bs : List PortBinding) (a a' : Alloc) (r),
      unrollEntry nport a bs = Except.ok r →
      ∃ r', unrollEntry nport a' bs = Except.ok r' := by
  intro bs
  induction bs with
  | nil => intro a a' r hr; exact ⟨_, rfl⟩
  | cons p rest ih =>
      intro a a' r hr
      unfold unrollEntry at hr ⊢
      dsimp only at hr ⊢
      by_cases hp : p.hostPort = ""
      · rw [if_pos hp] at hr ⊢
        dsimp only [requestHostPort] at hr ⊢
        cases hrec : unrollEntry nport ⟨a.next + 1, a.fresh⟩ rest with
        | error e => rw [hrec] at hr; cases hr
        | ok r2 =>
            obtain ⟨ms, bs2, a2⟩ := r2
            obtain ⟨r', hr'⟩ := ih _ ⟨a'.next + 1, a'.fresh⟩ _ hrec
            rw [hr']
            obtain ⟨ms', bs2', a2'⟩ := r'
            exact ⟨_, rfl⟩
      · rw [if_neg hp] at hr ⊢
        cases hat : atoi p.hostPort with
        | none => simp [hat] at hr
        | some hpn =>
            rw [hat] at hr
            dsimp only at hr ⊢
            cases hrec : unrollEntry nport a rest with
            | error e => rw [hrec] at hr; cases hr
            | ok r2 =>
                obtain ⟨ms, bs2, a2⟩ := r2
                obtain ⟨r', hr'⟩ := ih _ a' _ hrec
                rw [hr']
                obtain ⟨ms', bs2', a2'⟩ := r'
                exact ⟨_, rfl⟩

/-- Whether `unrollPortMap` succeeds does not depend on the allocator state. -/
theorem unrollPortMap_ok_indep :
    ∀ (pm : PortMap) (a a' : Alloc) (r),
      unrollPortMap a pm = Except.ok r →
      ∃ r', unrollPortMap a' pm = Except.ok r' := by
  intro pm
  induction pm with
  | nil => intro a a' r hr; exact ⟨_, rfl⟩
  | cons e rest ih =>
      intro a a' r hr
      obtain ⟨key, pb⟩ := e
      unfold unrollPortMap at hr ⊢
      cases hent : unrollEntry key a pb with
      | error er => rw [hent] at hr; cases hr
      | ok r1 =>
          rw [hent] at hr
          obtain ⟨ms, bs, a1⟩ := r1
          dsimp only at hr
          cases hrest : unrollPortMap a1 rest with
          | error er => rw [hrest] at hr; cases hr
          | ok r2 =>
              obtain ⟨r1', hent'⟩ := unrollEntry_ok_indep key pb a a' _ hent
              rw [hent']
              obtain ⟨ms', bs', a1'⟩ := r1'
              dsimp only
              obtain ⟨r2', hrest'⟩ := ih a1 a1' _ hrest
              rw [hrest']
              obtain ⟨ms2', pm2', a2'⟩ := r2'
              exact ⟨_, rfl⟩

/-- With every host port explicit, the mappings `unrollEntry` produces do not
depend on the allocator state. -/
theorem unrollEntry_explicit_indep (nport : PortKey) :
    ∀ (bs : List PortBinding), (∀ b ∈ bs, ¬b.hostPort = "") →
      ∀ (a a' : Alloc),
        (unrollEntry nport a bs).map (fun r => r.1) =
          (unrollEntry nport a' bs).map (fun r => r.1) := by
  intro bs
  induction bs with
  | nil => intro _ a a'; rfl
  | cons p rest ih =>
      intro hexp a a'
      have hp : ¬p.hostPort = "" := hexp p (List.mem_cons_self _ _)
      have hrest : ∀ b ∈ rest, ¬b.hostPort = "" :=
        fun b hb => hexp b (List.mem_cons_of_mem _ hb)
      unfold unrollEntry
      dsimp only
      rw [if_neg hp, if_neg hp]
      cases hat : atoi p.hostPort with
      | none => rfl
      | some hpn =>
          dsimp only
          have hih := ih hrest a a'
          cases h1 : unrollEntry nport a rest with
          | error e1 =>
              cases h2 : unrollEntry nport a' rest with
              | error e2 =>
                  simp only [h1, h2, Except.map] at hih
                  cases hih
                  rfl
              | ok r2 =>
                  simp only [h1, h2, Except.map] at hih
                  cases hih
          | ok r1 =>
              cases h2 : unrollEntry nport a' rest with
              | error e2 =>
                  simp only [h1, h2, Except.map] at hih
                  cases hih
              | ok r2 =>
                  obtain ⟨m1, b1, al1⟩ := r1
                  obtain ⟨m2, b2, al2⟩ := r2
                  simp only [h1, h2, Except.map, Except.ok.injEq] at hih
                  dsimp only
                  simp [Except.map, hih]

/-- With every host port explicit, the mappings `unrollPortMap` produces do
not depend on the allocator state. -/
theorem unrollPortMap_explicit_indep :
    ∀ (pm : PortMap), (∀ e ∈ pm, ∀ b ∈ e.2, ¬b.hostPort = "") →
      ∀ (a a' : Alloc),
        (unrollPortMap a pm).map (fun r => r.1) =
          (unrollPortMap a' pm).map (fun r => r.1) := by
  intro pm
  induction pm with
  | nil => intro _ a a'; rfl
  | cons e0 rest ih =>
      intro hexp a a'
      obtain ⟨key, pb⟩ := e0
      have hpb : ∀ b ∈ pb, ¬b.hostPort = "" :=
        fun b hb => hexp (key, pb) (List.mem_cons_self _ _) b hb
      have hrest : ∀ e ∈ rest, ∀ b ∈ e.2, ¬b.hostPort = "" :=
        fun e he => hexp e (List.mem_cons_of_mem _ he)
      have hent := unrollEntry_explicit_indep key pb hpb a a'
      unfold unrollPortMap
      cases h1 : unrollEntry key a pb with
      | error e1 =>
          cases h2 : unrollEntry key a' pb with
          | error e2 =>
              simp only [h1, h2, Except.map] at hent
              cases hent
              rfl
          | ok r2 =>
              simp only [h1, h2, Except.map] at hent
              cases hent
      | ok r1 =>
          cases h2 : unrollEntry key a' pb with
          | error e2 =>
              simp only [h1, h2, Except.map] at hent
              cases hent
          | ok r2 =>
              obtain ⟨m1, b1, al1⟩ := r1
              obtain ⟨m2, b2, al2⟩ := r2
              simp only [h1, h2, Except.map, Except.ok.injEq] at hent
              dsimp only
              have hrec := ih hrest al1 al2
              cases g1 : unrollPortMap al1 rest with
              | error e1 =>
                  cases g2 : unrollPortMap al2 rest with
                  | error e2 =>
                      simp only [g1, g2, Except.map] at hrec
                      cases hrec
                      rfl
                  | ok rr2 =>
                      simp only [g1, g2, Except.map] at hrec
                      cases hrec
              | ok rr1 =>
                  cases g2 : unrollPortMap al2 rest with
                  | error e2 =>
                      simp only [g1, g2, Except.map] at hrec
                      cases hrec
                  | ok rr2 =>
                      obtain ⟨mm1, pp1, aa1⟩ := rr1
                      obtain ⟨mm2, pp2, aa2⟩ := rr2
                      simp only [g1, g2, Except.map, Except.ok.injEq] at hrec
                      dsimp only
                      simp [Except.map, hent, hrec]

theorem unrolledPorts_explicit (cfg : PortMap)
    (hexp : ∀ e ∈ cfg, ∀ b ∈ e.2, ¬b.hostPort = "") (a a' : Alloc) :
    unrolledPorts cfg a = unrolledPorts cfg a' := by
  have h := unrollPortMap_explicit_indep cfg hexp a a'
  unfold unrolledPorts
  cases h1 : unrollPortMap a cfg with
  | error e1 =>
      cases h2 : unrollPortMap a' cfg with
      | error e2 => rfl
      | ok r2 =>
          simp only [h1, h2, Except.map] at h
          cases h
  | ok r1 =>
      cases h2 : unrollPortMap a' cfg with
      | error e2 =>
          simp only [h1, h2, Except.map] at h
          cases h
      | ok r2 =>
          obtain ⟨m1, p1, al1⟩ := r1
          obtain ⟨m2, p2, al2⟩ := r2
          simp only [h1, h2, Except.map, Except.ok.injEq] at h
          dsimp only
          rw [h]

theorem unmapPorts_nil (st : PMState) : unmapPorts [] st = Except.ok st := rfl

theorem unmapPorts_cons (e0 : PortKey × List PortBinding) (rest0 : PortMap)
    (st : PMState) :
    unmapPorts (e0 :: rest0) st =
      match unrollPortMap st.alloc (e0 :: rest0) with
      | Except.error e => Except.error e
      | Except.ok (ms, _pm, a1) => Except.ok ⟨unmapFold ms st.index, a1⟩ := rfl

/-- Claim C6: `unmapPorts` is idempotent.  After a successful invocation none
of the host ports it unrolled has an index entry left; a second invocation
returns no error (entries already absent are skipped, not failures) and again
leaves no entry for the ports it unrolled; and when every binding carries an
explicit host port the two invocations unroll the same host ports. -/
theorem unmapPorts_idempotent (cfg : PortMap) (st st1 : PMState)
    (h1 : unmapPorts cfg st = Except.ok st1) :
    (∀ hp ∈ unrolledPorts cfg st.alloc, lookupA st1.index hp = none) ∧
    (∃ st2, unmapPorts cfg st1 = Except.ok st2 ∧
      ∀ hp ∈ unrolledPorts cfg st1.alloc, lookupA st2.index hp = none) ∧
    ((∀ e ∈ cfg, ∀ b ∈ e.2, ¬b.hostPort = "") →
      unrolledPorts cfg st1.alloc = unrolledPorts cfg st.alloc) := by
  cases cfg with
  | nil =>
      rw [unmapPorts_nil] at h1
      injection h1 with h1
      subst h1
      refine ⟨?_, ⟨st, unmapPorts_nil st, ?_⟩, fun _ => rfl⟩
      · intro hp h
        simp [unrolledPorts, unrollPortMap] at h
      · intro hp h
        simp [unrolledPorts, unrollPortMap] at h
  | cons e0 rest0 =>
      rw [unmapPorts_cons] at h1
      cases hun : unrollPortMap st.alloc (e0 :: rest0) with
      | error e =>
          rw [hun] at h1
          cases h1
      | ok r =>
          rw [hun] at h1
          obtain ⟨ms, pm, a1⟩ := r
          dsimp only at h1
          injection h1 with h1
          have hst1i : st1.index = unmapFold ms st.index := by rw [← h1]
          have hst1a : st1.alloc = a1 := by rw [← h1]
          obtain ⟨r', hun'⟩ := unrollPortMap_ok_indep (e0 :: rest0) st.alloc st1.alloc _ hun
          obtain ⟨ms', pm', a2⟩ := r'
          refine ⟨?_, ⟨⟨unmapFold ms' st1.index, a2⟩, ?_, ?_⟩, ?_⟩
          · intro hp hmem
            rw [hst1i]
            unfold unrolledPorts at hmem
            rw [hun] at hmem
            exact lookupA_unmapFold_processed ms st.index hp hmem
          · rw [unmapPorts_cons, hun']
          · intro hp hmem
            unfold unrolledPorts at hmem
            rw [hun'] at hmem
            exact lookupA_unmapFold_processed ms' st1.index hp hmem
          · intro hexp
            exact unrolledPorts_explicit (e0 :: rest0) hexp st1.alloc st.alloc

/-- Concrete run for `unmapPorts_idempotent`: one explicit binding for host
port 8080, owned by container c1; the first call removes the entry, the
second finds nothing to do and succeeds. -/
theorem unmapPorts_idempotent_witness :
    (∀ hp ∈ unrolledPorts [(⟨"tcp", "80"⟩, [⟨"", "8080"⟩])]
        (⟨[("8080", "c1")], ⟨0, fun _ => 40000⟩⟩ : PMState).alloc,
      lookupA (⟨[], ⟨0, fun _ => 40000⟩⟩ : PMState).index hp = none) ∧
    (∃ st2, unmapPorts [(⟨"tcp", "80"⟩, [⟨"", "8080"⟩])]
        (⟨[], ⟨0, fun _ => 40000⟩⟩ : PMState) = Except.ok st2 ∧
      ∀ hp ∈ unrolledPorts [(⟨"tcp", "80"⟩, [⟨"", "8080"⟩])]
          (⟨[], ⟨0, fun _ => 40000⟩⟩ : PMState).alloc,
        lookupA st2.index hp = none) ∧
    ((∀ e ∈ ([(⟨"tcp", "80"⟩, [⟨"", "8080"⟩])] : PortMap), ∀ b ∈ e.2,
        ¬b.hostPort = "") →
      unrolledPorts [(⟨"tcp", "80"⟩, [⟨"", "8080"⟩])]
          (⟨[], ⟨0, fun _ => 40000⟩⟩ : PMState).alloc =
        unrolledPorts [(⟨"tcp", "80"⟩, [⟨"", "8080"⟩])]
          (⟨[("8080", "c1")], ⟨0, fun _ => 40000⟩⟩ : PMState).alloc) :=
  unmapPorts_idempotent [(⟨"tcp", "80"⟩, [⟨"", "8080"⟩])]
    ⟨[("8080", "c1")], ⟨0, fun _ => 40000⟩⟩ ⟨[], ⟨0, fun _ => 40000⟩⟩ rfl

/-! ### `cleanupPortBindings`

For each host port the container requests, the current owner (per the index)
has its live power state queried through the port-layer
(`containerProxy.IsRunning` on the cached container); a running owner keeps
its mapping at that step, a non-running owner has its whole cached HostConfig
unmapped.  `cache` and `running` are the container cache and the power-state
query, collaborators outside this function. -/

structure CleanupEnv where
  cache : String → Option PortMap
  running : String → Except String Bool

/-- Inner loop of `cleanupPortBindings` over one binding list.  `qs` collects
the owners whose power state was queried, in order. -/
def cleanupBindings (env : CleanupEnv) :
    List PortBinding → PMState → List String →
      Except String (PMState × List String)
  | [], st, qs => Except.ok (st, qs)
  | b :: rest, st, qs =>
      match lookupA st.index b.hostPort with
      | none => cleanupBindings env rest st qs
      | some mappedCtr =>
          match env.cache mappedCtr with
          | none => Except.error "unable to find container in the cache"
          | some ccCfg =>
              match env.running mappedCtr with
              | Except.error _ =>
                  Except.error "failed to get container power state"
              | Except.ok true => cleanupBindings env rest st (qs ++ [mappedCtr])
              | Except.ok false =>
                  match unmapPorts ccCfg st with
                  | Except.error _ => Except.error "failed to unmap host port"
                  | Except.ok st2 =>
                      cleanupBindings env rest st2 (qs ++ [mappedCtr])

/-- Outer loop of `cleanupPortBindings` over the container's port bindings. -/
def cleanupEntries (env : CleanupEnv) :
    PortMap → PMState → List String → Except String (PMState × List String)
  | [], st, qs => Except.ok (st, qs)
  | (_, bs) :: rest, st, qs =>
      match cleanupBindings env bs st qs with
      | Except.error e => Except.error e
      | Except.ok (st1, qs1) => cleanupEntries env rest st1 qs1

/-- `cleanupPortBindings(vc)` walks `vc.HostConfig.PortBindings`. -/
def cleanupPortBindings (env : CleanupEnv) (vc : PortMap) (st : PMState) :
    Except String (PMState × List String) :=
  cleanupEntries env vc st []

theorem unmapPorts_lookup_some {cfg : PortMap} {st st2 : PMState}
    (h : unmapPorts cfg st = Except.ok st2) {k v : String}
    (hl : lookupA st2.index k = some v) : lookupA st.index k = some v := by
  cases cfg with
  | nil =>
      rw [unmapPorts_nil] at h
      injection h with h
      rw [← h] at hl
      exact hl
  | cons e0 rest0 =>
      rw [unmapPorts_cons] at h
      cases hun : unrollPortMap st.alloc (e0 :: rest0) with
      | error e => rw [hun] at h; cases h
      | ok r =>
          rw [hun] at h
          obtain ⟨ms, pm, a1⟩ := r
          dsimp only at h
          injection h with h
          rw [← h] at hl
          exact lookupA_unmapFold_some ms st.index k v hl

theorem unmapPorts_lookup_none {cfg : PortMap} {st st2 : PMState}
    (h : unmapPorts cfg st = Except.ok st2) {k : String}
    (hl : lookupA st.index k = none) : lookupA st2.index k = none := by
  cases cfg with
  | nil =>
      rw [unmapPorts_nil] at h
      injection h with h
      rw [← h]
      exact hl
  | cons e0 rest0 =>
      rw [unmapPorts_cons] at h
      cases hun : unrollPortMap st.alloc (e0 :: rest0) with
      | error e => rw [hun] at h; cases h
      | ok r =>
          rw [hun] at h
          obtain ⟨ms, pm, a1⟩ := r
          dsimp only at h
          injection h with h
          rw [← h]
          exact lookupA_unmapFold_none ms st.index k hl

/-- A non-running owner's unmap clears every host port its cached config
unrolls to, whatever the current allocator state. -/
theorem unmapPorts_clears_unrolled {cfg : PortMap} {st st2 : PMState}
    (h : unmapPorts cfg st = Except.ok st2) {k : String}
    (hmem : ∀ a, k ∈ unrolledPorts cfg a) : lookupA st2.index k = none := by
  cases cfg with
  | nil =>
      have := hmem st.alloc
      simp [unrolledPorts, unrollPortMap] at this
  | cons e0 rest0 =>
      rw [unmapPorts_cons] at h
      cases hun : unrollPortMap st.alloc (e0 :: rest0) with
      | error e => rw [hun] at h; cases h
      | ok r =>
          rw [hun] at h
          obtain ⟨ms, pm, a1⟩ := r
          dsimp only at h
          injection h with h
          rw [← h]
          have hm := hmem st.alloc
          unfold unrolledPorts at hm
          rw [hun] at hm
          exact lookupA_unmapFold_processed ms st.index k hm

theorem cleanupBindings_lookup_some (env : CleanupEnv) :
    ∀ (bs : List PortBinding) (st : PMState) (qs : List String) (st' : PMState)
      (qs' : List String) (k v : String),
      cleanupBindings env bs st qs = Except.ok (st', qs') →
      lookupA st'.index k = some v → lookupA st.index k = some v := by
  intro bs
  induction bs with
  | nil =>
      intro st qs st' qs' k v h hl
      simp only [cleanupBindings, Except.ok.injEq, Prod.mk.injEq] at h
      rw [← h.1] at hl
      exact hl
  | cons b rest ih =>
      intro st qs st' qs' k v h hl
      unfold cleanupBindings at h
      cases hl0 : lookupA st.index b.hostPort with
      | none =>
          rw [hl0] at h
          dsimp only at h
          exact ih st qs st' qs' k v h hl
      | some m =>
          rw [hl0] at h
          dsimp only at h
          cases hc : env.cache m with
          | none =>
              rw [hc] at h
              dsimp only at h
              cases h
          | some cfg =>
              rw [hc] at h
              dsimp only at h
              cases hr : env.running m with
              | error e =>
                  rw [hr] at h
                  dsimp only at h
                  cases h
              | ok bb =>
                  rw [hr] at h
                  cases bb with
                  | false =>
                      dsimp only at h
                      cases hu : unmapPorts cfg st with
                      | error e =>
                          rw [hu] at h
                          dsimp only at h
                          cases h
                      | ok st2 =>
                          rw [hu] at h
                          dsimp only at h
                          exact unmapPorts_lookup_some hu
                            (ih st2 (qs ++ [m]) st' qs' k v h hl)
                  | true =>
                      dsimp only at h
                      exact ih st (qs ++ [m]) st' qs' k v h hl

theorem cleanupBindings_lookup_none (env : CleanupEnv) :
    ∀ (bs : List PortBinding) (st : PMState) (qs : List String) (st' : PMState)
      (qs' : List String) (k : String),
      cleanupBindings env bs st qs = Except.ok (st', qs') →
      lookupA st.index k = none → lookupA st'.index k = none := by
  intro bs
  induction bs with
  | nil =>
      intro st qs st' qs' k h hl
      simp only [cleanupBindings, Except.ok.injEq, Prod.mk.injEq] at h
      rw [← h.1]
      exact hl
  | cons b rest ih =>
      intro st qs st' qs' k h hl
      unfold cleanupBindings at h
      cases hl0 : lookupA st.index b.hostPort with
      | none =>
          rw [hl0] at h
          dsimp only at h
          exact ih st qs st' qs' k h hl
      | some m =>
          rw [hl0] at h
          dsimp only at h
          cases hc : env.cache m with
          | none =>
              rw [hc] at h
              dsimp only at h
              cases h
          | some cfg =>
              rw [hc] at h
              dsimp only at h
              cases hr : env.running m with
              | error e =>
                  rw [hr] at h
                  dsimp only at h
                  cases h
              | ok bb =>
                  rw [hr] at h
                  cases bb with
                  | false =>
                      dsimp only at h
                      cases hu : unmapPorts cfg st with
                      | error e =>
                          rw [hu] at h
                          dsimp only at h
                          cases h
                      | ok st2 =>
                          rw [hu] at h
                          dsimp only at h
                          exact ih st2 (qs ++ [m]) st' qs' k h
                            (unmapPorts_lookup_none hu hl)
                  | true =>
                      dsimp only at h
                      exact ih st (qs ++ [m]) st' qs' k h hl

theorem cleanupEntries_lookup_none (env : CleanupEnv) :
    ∀ (pm : PortMap) (st : PMState) (qs : List String) (st' : PMState)
      (qs' : List String) (k : String),
      cleanupEntries env pm st qs = Except.ok (st', qs') →
      lookupA st.index k = none → lookupA st'.index k = none := by
  intro pm
  induction pm with
  | nil =>
      intro st qs st' qs' k h hl
      simp only [cleanupEntries, Except.ok.injEq, Prod.mk.injEq] at h
      rw [← h.1]
      exact hl
  | cons e0 rest ih =>
      intro st qs st' qs' k h hl
      obtain ⟨k0, bs0⟩ := e0
      unfold cleanupEntries at h
      cases hb : cleanupBindings env bs0 st qs with
      | error e =>
          rw [hb] at h
          dsimp only at h
          cases h
      | ok r1 =>
          rw [hb] at h
          obtain ⟨st1, qs1⟩ := r1
          dsimp only at h
          exact ih st1 qs1 st' qs' k h
            (cleanupBindings_lookup_none env bs0 st qs st1 qs1 k hb hl)

/-- Inner-loop form of the reclaim property: if some binding in the list
requests `hp`, the index currently maps `hp` to `o` (or to nothing), `o`'s
cached config is known and unrolls to `hp` whatever the allocator state, and
`o` is confirmed not running, then a successful pass leaves no index entry
for `hp`. -/
theorem cleanupBindings_reclaims (env : CleanupEnv) {o : String} {cfgO : PortMap}
    {hp : String} (hc : env.cache o = some cfgO)
    (hr : env.running o = Except.ok false)
    (hin : ∀ a, hp ∈ unrolledPorts cfgO a) :
    ∀ (bs : List PortBinding) (st : PMState) (qs : List String) (st' : PMState)
      (qs' : List String),
      cleanupBindings env bs st qs = Except.ok (st', qs') →
      (∃ b ∈ bs, b.hostPort = hp) →
      (lookupA st.index hp = some o ∨ lookupA st.index hp = none) →
      lookupA st'.index hp = none := by
  intro bs
  induction bs with
  | nil =>
      intro st qs st' qs' h hex hdisj
      obtain ⟨b, hb, _⟩ := hex
      cases hb
  | cons b rest ih =>
      intro st qs st' qs' h hex hdisj
      unfold cleanupBindings at h
      by_cases hbp : b.hostPort = hp
      · -- the binding under scrutiny is processed now
        rw [hbp] at h
        rcases hdisj with hsome | hnone
        · rw [hsome] at h
          dsimp only at h
          rw [hc] at h
          dsimp only at h
          rw [hr] at h
          dsimp only at h
          cases hu : unmapPorts cfgO st with
          | error e =>
              rw [hu] at h
              dsimp only at h
              cases h
          | ok st2 =>
              rw [hu] at h
              dsimp only at h
              exact cleanupBindings_lookup_none env rest st2 (qs ++ [o]) st' qs' hp h
                (unmapPorts_clears_unrolled hu hin)
        · rw [hnone] at h
          dsimp only at h
          exact cleanupBindings_lookup_none env rest st qs st' qs' hp h hnone
      · -- a later binding requests hp
        have hex' : ∃ b' ∈ rest, b'.hostPort = hp := by
          obtain ⟨b', hb', hbp'⟩ := hex
          rcases List.mem_cons.mp hb' with he | he
          · exact absurd (he ▸ hbp') hbp
          · exact ⟨b', he, hbp'⟩
        cases hl0 : lookupA st.index b.hostPort with
        | none =>
            rw [hl0] at h
            dsimp only at h
            exact ih st qs st' qs' h hex' hdisj
        | some m =>
            rw [hl0] at h
            dsimp only at h
            cases hcm : env.cache m with
            | none =>
                rw [hcm] at h
                dsimp only at h
                cases h
            | some cfg =>
                rw [hcm] at h
                dsimp only at h
                cases hrm : env.running m with
                | error e =>
                    rw [hrm] at h
                    dsimp only at h
                    cases h
                | ok bb =>
                    rw [hrm] at h
                    cases bb with
                    | false =>
                        dsimp only at h
                        cases hu : unmapPorts cfg st with
                        | error e =>
                            rw [hu] at h
                            dsimp only at h
                            cases h
                        | ok st2 =>
                            rw [hu] at h
                            dsimp only at h
                            refine ih st2 (qs ++ [m]) st' qs' h hex' ?_
                            rcases hdisj with hsome | hnone
                            · cases hl2 : lookupA st2.index hp with
                              | none => exact Or.inr rfl
                              | some v =>
                                  have hv := unmapPorts_lookup_some hu hl2
                                  rw [hsome] at hv
                                  injection hv with hov
                                  exact Or.inl (by rw [hov])
                            · exact Or.inr (unmapPorts_lookup_none hu hnone)
                    | true =>
                        dsimp only at h
                        exact ih st (qs ++ [m]) st' qs' h hex' hdisj

/-- Outer-loop form of the reclaim property. -/
theorem cleanupEntries_reclaims (env : CleanupEnv) {o : String} {cfgO : PortMap}
    {hp : String} (hc : env.cache o = some cfgO)
    (hr : env.running o = Except.ok false)
    (hin : ∀ a, hp ∈ unrolledPorts cfgO a) :
    ∀ (pm : PortMap) (st : PMState) (qs : List String) (st' : PMState)
      (qs' : List String),
      cleanupEntries env pm st qs = Except.ok (st', qs') →
      (∃ kbs ∈ pm, ∃ b ∈ kbs.2, b.hostPort = hp) →
      (lookupA st.index hp = some o ∨ lookupA st.index hp = none) →
      lookupA st'.index hp = none := by
  intro pm
  induction pm with
  | nil =>
      intro st qs st' qs' h hex hdisj
      obtain ⟨kbs, hk, _⟩ := hex
      cases hk
  | cons e0 rest ih =>
      intro st qs st' qs' h hex hdisj
      obtain ⟨k0, bs0⟩ := e0
      unfold cleanupEntries at h
      cases hb : cleanupBindings env bs0 st qs with
      | error e =>
          rw [hb] at h
          dsimp only at h
          cases h
      | ok r1 =>
          rw [hb] at h
          obtain ⟨st1, qs1⟩ := r1
          dsimp only at h
          obtain ⟨kbs, hk, hbex⟩ := hex
          rcases List.mem_cons.mp hk with he | he
          · -- hp requested by the head entry
            subst he
            have h1 : lookupA st1.index hp = none :=
              cleanupBindings_reclaims env hc hr hin bs0 st qs st1 qs1 hb hbex hdisj
            exact cleanupEntries_lookup_none env rest st1 qs1 st' qs' hp h h1
          · -- hp requested by a later entry
            refine ih st1 qs1 st' qs' h ⟨kbs, he, hbex⟩ ?_
            rcases hdisj with hsome | hnone
            · cases hl1 : lookupA st1.index hp with
              | none => exact Or.inr rfl
              | some v =>
                  have hv := cleanupBindings_lookup_some env bs0 st qs st1 qs1 hp v hb hl1
                  rw [hsome] at hv
                  injection hv with hov
                  exact Or.inl (by rw [hov])
            · exact Or.inr
                (cleanupBindings_lookup_none env bs0 st qs st1 qs1 hp hb hnone)

/-- Inner-loop form of the keep property: when every owner of a requested,
currently-mapped host port is in the cache and confirmed running, the pass
succeeds, the index (and allocator) are untouched, and every such owner was
queried. -/
theorem cleanupBindings_all_running (env : CleanupEnv) :
    ∀ (bs : List PortBinding) (st : PMState) (qs : List String),
      (∀ b ∈ bs, ∀ o, lookupA st.index b.hostPort = some o →
        env.cache o ≠ none ∧ env.running o = Except.ok true) →
      ∃ qs', cleanupBindings env bs st qs = Except.ok (st, qs') ∧
        qs ⊆ qs' ∧
        ∀ b ∈ bs, ∀ o, lookupA st.index b.hostPort = some o → o ∈ qs' := by
  intro bs
  induction bs with
  | nil =>
      intro st qs _
      exact ⟨qs, rfl, List.Subset.refl qs, fun b hb => absurd hb (List.not_mem_nil b)⟩
  | cons b rest ih =>
      intro st qs hall
      have hrest : ∀ b' ∈ rest, ∀ o, lookupA st.index b'.hostPort = some o →
          env.cache o ≠ none ∧ env.running o = Except.ok true :=
        fun b' hb' => hall b' (List.mem_cons_of_mem _ hb')
      cases hl0 : lookupA st.index b.hostPort with
      | none =>
          obtain ⟨qs', heq, hsub, hmem⟩ := ih st qs hrest
          refine ⟨qs', ?_, hsub, ?_⟩
          · unfold cleanupBindings
            rw [hl0]
            exact heq
          · intro b' hb' o ho
            rcases List.mem_cons.mp hb' with he | he
            · rw [he, hl0] at ho
              cases ho
            · exact hmem b' he o ho
      | some m =>
          obtain ⟨hcache, hrun⟩ := hall b (List.mem_cons_self _ _) m hl0
          obtain ⟨cfg, hcfg⟩ := Option.ne_none_iff_exists'.mp hcache
          obtain ⟨qs', heq, hsub, hmem⟩ := ih st (qs ++ [m]) hrest
          refine ⟨qs', ?_, ?_, ?_⟩
          · unfold cleanupBindings
            rw [hl0]
            dsimp only
            rw [hcfg]
            dsimp only
            rw [hrun]
            dsimp only
            exact heq
          · exact fun x hx => hsub (List.mem_append_left _ hx)
          · intro b' hb' o ho
            rcases List.mem_cons.mp hb' with he | he
            · rw [he, hl0] at ho
              injection ho with ho
              rw [← ho]
              exact hsub (List.mem_append_right _ (List.mem_cons_self _ _))
            · exact hmem b' he o ho

/-- Outer-loop form of the keep property. -/
theorem cleanupEntries_all_running (env : CleanupEnv) :
    ∀ (pm : PortMap) (st : PMState) (qs : List String),
      (∀ kbs ∈ pm, ∀ b ∈ kbs.2, ∀ o, lookupA st.index b.hostPort = some o →
        env.cache o ≠ none ∧ env.running o = Except.ok true) →
      ∃ qs', cleanupEntries env pm st qs = Except.ok (st, qs') ∧
        qs ⊆ qs' ∧
        ∀ kbs ∈ pm, ∀ b ∈ kbs.2, ∀ o, lookupA st.index b.hostPort = some o →
          o ∈ qs' := by
  intro pm
  induction pm with
  | nil =>
      intro st qs _
      exact ⟨qs, rfl, List.Subset.refl qs,
        fun kbs hk => absurd hk (List.not_mem_nil kbs)⟩
  | cons e0 rest ih =>
      intro st qs hall
      obtain ⟨k0, bs0⟩ := e0
      have hhead : ∀ b ∈ bs0, ∀ o, lookupA st.index b.hostPort = some o →
          env.cache o ≠ none ∧ env.running o = Except.ok true :=
        fun b hb => hall (k0, bs0) (List.mem_cons_self _ _) b hb
      have hrest : ∀ kbs ∈ rest, ∀ b ∈ kbs.2, ∀ o,
          lookupA st.index b.hostPort = some o →
          env.cache o ≠ none ∧ env.running o = Except.ok true :=
        fun kbs hk => hall kbs (List.mem_cons_of_mem _ hk)
      obtain ⟨qs1, heq1, hsub1, hmem1⟩ := cleanupBindings_all_running env bs0 st qs hhead
      obtain ⟨qs', heq, hsub, hmem⟩ := ih st qs1 hrest
      refine ⟨qs', ?_, fun x hx => hsub (hsub1 hx), ?_⟩
      · unfold cleanupEntries
        rw [heq1]
        exact heq
      · intro kbs hk b hb o ho
        rcases List.mem_cons.mp hk with he | he
        · subst he
          exact hsub (hmem1 b hb o ho)
        · exact hmem kbs he b hb o ho

/-- Claim C5 (amended): for every requested host port currently owned per the
index, the owner's live power state is queried.  When every such owner is
cached and confirmed running, the call changes nothing and only queries; a
requested port whose owner is cached, confirmed not running, and whose cached
bindings unroll to that port, ends the call with no index entry — the port is
reclaimed.  (The unrestricted "a running owner's port is never unmapped by
this call" fails: a stopped owner's cached config may list the same port, see
the counterexample.) -/
theorem cleanupPortBindings_owner_power_state (env : CleanupEnv) (vc : PortMap)
    (st : PMState) :
    ((∀ kbs ∈ vc, ∀ b ∈ kbs.2, ∀ o, lookupA st.index b.hostPort = some o →
        env.cache o ≠ none ∧ env.running o = Except.ok true) →
      ∃ qs, cleanupPortBindings env vc st = Except.ok (st, qs) ∧
        ∀ kbs ∈ vc, ∀ b ∈ kbs.2, ∀ o, lookupA st.index b.hostPort = some o →
          o ∈ qs) ∧
    (∀ st' qs kbs b o cfgO,
      cleanupPortBindings env vc st = Except.ok (st', qs) →
      kbs ∈ vc → b ∈ kbs.2 →
      lookupA st.index b.hostPort = some o →
      env.cache o = some cfgO → env.running o = Except.ok false →
      (∀ a, b.hostPort ∈ unrolledPorts cfgO a) →
      lookupA st'.index b.hostPort = none) := by
  constructor
  · intro hall
    obtain ⟨qs', heq, _, hmem⟩ := cleanupEntries_all_running env vc st [] hall
    exact ⟨qs', heq, hmem⟩
  · intro st' qs kbs b o cfgO h hk hb ho hc hr hin
    exact cleanupEntries_reclaims env hc hr hin vc st [] st' qs h
      ⟨kbs, hk, b, hb, rfl⟩ (Or.inl ho)

def cfgACex : PortMap :=
  [(⟨"tcp", "8083"⟩, [⟨"", "8083"⟩]), (⟨"tcp", "9001"⟩, [⟨"", "9001"⟩])]

def cfgBCex : PortMap := [(⟨"tcp", "8083"⟩, [⟨"", "8083"⟩])]

/-- Container cache and power states: B (owner of 8083) is running, A (owner
of 9001, whose cached config also lists 8083) is stopped. -/
def envCex : CleanupEnv :=
  ⟨fun s => if s = "A" then some cfgACex else if s = "B" then some cfgBCex else none,
   fun s =>
     if s = "B" then Except.ok true
     else if s = "A" then Except.ok false
     else Except.error "unknown container"⟩

/-- The container being started requests 8083 and 9001. -/
def vcCex : PortMap :=
  [(⟨"tcp", "8083"⟩, [⟨"", "8083"⟩]), (⟨"tcp", "9001"⟩, [⟨"", "9001"⟩])]

def stC5 : PMState := ⟨[("8083", "B"), ("9001", "A")], ⟨0, fun _ => 40000⟩⟩

/-- Claim C5 counterexample: requested port 8083 is owned by B, which is
queried and confirmed running — yet the same call unmaps it, because the
requested port 9001 is owned by the stopped container A whose cached
HostConfig also lists 8083, and `unmapPorts(A's config)` removes both
entries.  "Never unmapped by this call" fails. -/
theorem cleanupPortBindings_unmaps_running_owner :
    lookupA stC5.index "8083" = some "B" ∧
    envCex.running "B" = Except.ok true ∧
    (⟨"tcp", "8083"⟩, [(⟨"", "8083"⟩ : PortBinding)]) ∈ vcCex ∧
    (cleanupPortBindings envCex vcCex stC5).toOption.map
        (fun r => (lookupA r.1.index "8083", r.2)) =
      some (none, ["B", "A"]) := by
  refine ⟨rfl, rfl, ?_, rfl⟩
  decide

theorem cleanupPortBindings_owner_power_state_witness :
    (∃ qs, cleanupPortBindings envCex cfgBCex
        ⟨[("8083", "B")], ⟨0, fun _ => 40000⟩⟩ =
        Except.ok (⟨[("8083", "B")], ⟨0, fun _ => 40000⟩⟩, qs) ∧
      ∀ kbs ∈ cfgBCex, ∀ b ∈ kbs.2, ∀ o,
        lookupA (⟨[("8083", "B")], ⟨0, fun _ => 40000⟩⟩ : PMState).index
          b.hostPort = some o → o ∈ qs) ∧
    lookupA (⟨[], ⟨0, fun _ => 40000⟩⟩ : PMState).index "9001" = none := by
  constructor
  · refine (cleanupPortBindings_owner_power_state envCex cfgBCex
      ⟨[("8083", "B")], ⟨0, fun _ => 40000⟩⟩).1 ?_
    intro kbs hk b hb o ho
    rcases List.mem_cons.mp hk with he | he
    · subst he
      rcases List.mem_cons.mp hb with hbe | hbe
      · subst hbe
        have ho2 : some "B" = some o := by
          rw [← ho]
          rfl
        injection ho2 with ho2
        rw [← ho2]
        exact ⟨by decide, rfl⟩
      · cases hbe
    · cases he
  · exact (cleanupPortBindings_owner_power_state envCex
        [(⟨"tcp", "9001"⟩, [⟨"", "9001"⟩])]
        ⟨[("9001", "A")], ⟨0, fun _ => 40000⟩⟩).2
      ⟨[], ⟨0, fun _ => 40000⟩⟩ ["A"]
      (⟨"tcp", "9001"⟩, [⟨"", "9001"⟩]) ⟨"", "9001"⟩ "A" cfgACex
      rfl (List.mem_cons_self _ _) (List.mem_cons_self _ _) rfl rfl rfl
      (fun a => List.mem_cons_of_mem _ (List.mem_cons_self _ _))

end Engine

end Vic
